import Mathlib

/-!
Verification development for the GitLab comment tracker
(`comment_tracker.py`, class `GitLabCommentTracker`).

The reconciliation engine `check_for_new_comments` (lines 212-329) is embedded
as pure Lean functions.  API results (projects, merge requests, discussions,
notes) are modelled as input data.  An ISO-8601 timestamp string is modelled by
the result of `datetime.fromisoformat(s.replace('Z', '+00:00'))`: `some t`
when the string parses to the instant `t` (in seconds), `none` when it is
malformed and the call raises `ValueError`.  A raised exception is modelled by
a `Bool` flag that short-circuits the remaining processing, carrying the
partial in-memory state mutated so far (Python mutates `self.tracked_comments`
in place, so mutations made before a raise survive).
-/

namespace CommentTracker

/-- One note of a discussion thread, as returned by the discussions API.
`created_at` models the note's ISO-8601 timestamp string by its parse result. -/
structure Note where
  id : String
  author : String
  system : Bool
  created_at : Option Int
deriving DecidableEq

/-- A discussion thread: an ordered sequence of notes (line 239). -/
structure Discussion where
  notes : List Note
deriving DecidableEq

/-- An open merge request together with its fetched details (lines 222-235):
author, title, declared reviewers from `mr_details['reviewers']`, and its
discussion threads. -/
structure MergeRequest where
  iid : Nat
  author : String
  title : String
  reviewers : List String
  discussions : List Discussion
deriving DecidableEq

/-- A project with its open merge requests (`get_merge_requests`, state=opened). -/
structure Project where
  id : Nat
  path_with_namespace : String
  mrs : List MergeRequest
deriving DecidableEq

/-- A ledger entry of `self.tracked_comments` (created at lines 259-267).
`created_at` models the stored timestamp string by its parse result;
`responder` is `none` until the key is first written (line 298). -/
structure Record where
  project_id : Nat
  mr_iid : Nat
  author : String
  created_at : Option Int
  notified_at : Int
  responded : Bool
  responder : Option String
  followup_sent : Bool
deriving DecidableEq

/-- The in-memory ledger `self.tracked_comments`: a Python dict from note id
to record, modelled as an association list (insertion at the end, update in
place, exactly the dict's behaviour). -/
abbrev Ledger := List (String × Record)

/-- Python `note_id in self.tracked_comments` / `self.tracked_comments[note_id]`. -/
def dictFind : Ledger → String → Option Record
  | [], _ => none
  | (k', v) :: rest, k => if k' = k then some v else dictFind rest k

/-- Python `self.tracked_comments[note_id] = record`: update in place if the
key exists, append at the end otherwise. -/
def dictSet : Ledger → String → Record → Ledger
  | [], k, v => [(k, v)]
  | (k', v') :: rest, k, v =>
    if k' = k then (k, v) :: rest else (k', v') :: dictSet rest k v

/-- Python `x in xs` membership on string lists. -/
def listHas : List String → String → Bool
  | [], _ => false
  | y :: rest, x => if y = x then true else listHas rest x

/-- The configuration fields consulted by the reconciliation engine:
`tracked_users` (allowlist, empty means track everyone) and `slack_user_map`. -/
structure Config where
  tracked_users : List String
  slack_user_map : List (String × String)
deriving DecidableEq

/-- Lines 148-152: `should_track_user`. -/
def should_track_user (cfg : Config) (username : String) : Bool :=
  if cfg.tracked_users.isEmpty then true else listHas cfg.tracked_users username

/-- Lookup in the handle-to-Slack-id mapping. -/
def lookupStr : List (String × String) → String → Option String
  | [], _ => none
  | (k', v) :: rest, k => if k' = k then some v else lookupStr rest k

/-- Lines 154-156: `get_slack_user_id`. -/
def get_slack_user_id (cfg : Config) (u : String) : Option String :=
  lookupStr cfg.slack_user_map u

/-- Which of the three message templates a dispatched notification used
(`format_comment_notification` with `is_followup` false/true, lines 188-210,
or the inline response template at lines 308-314). -/
inductive NotifKind
  | newComment
  | followup
  | response
deriving DecidableEq

/-- A successfully dispatched Slack message (a `send_slack_message` call made
after a Slack id was found): template kind, Slack recipient id, the GitLab
handle it was looked up for, and the tracked note the message is about. -/
structure Notif where
  kind : NotifKind
  slack_user : String
  recipient : String
  note_id : String
deriving DecidableEq

/-- Python `set.add`: membership-based insertion (list order is irrelevant,
only membership is ever consulted). -/
def setAdd (s : List String) (x : String) : List String :=
  if listHas s x then s else s ++ [x]

/-- Mutable state threaded through the note loop: the reviewer set being
built (lines 231-249), the ledger, the dispatched notifications, and — as a
pure observation — the snapshot of the reviewer set taken each time the
response-notification decision of line 301 is evaluated. -/
structure St where
  reviewers : List String
  ledger : Ledger
  notifs : List Notif
  snaps : List (List String)
deriving DecidableEq

/-- The fresh record created at lines 259-267 for a newly observed note.
`notified_at` is the `current_time` captured once at the top of the cycle
(line 215). -/
def freshRecord (project_id : Nat) (mr_iid : Nat) (note : Note)
    (current_time : Int) : Record :=
  { project_id := project_id, mr_iid := mr_iid, author := note.author,
    created_at := note.created_at, notified_at := current_time,
    responded := false, responder := none, followup_sent := false }

/-- Lines 269-279: the follow-up check.  Returns the `needs_followup` flag and
the updated ledger, plus a raised flag: parsing the stored `created_at`
(line 276) raises on a malformed timestamp.  `timedelta(hours=24)` is 86400
seconds; the comparison is strict (line 277). -/
def followupCheck (now : Int) (ledger : Ledger) (note_id : String) :
    (Bool × Ledger) × Bool :=
  match dictFind ledger note_id with
  | none => ((false, ledger), false)
  | some r =>
    if r.responded = false ∧ r.followup_sent = false then
      match r.created_at with
      | none => ((false, ledger), true)
      | some t =>
        if now - t > 86400 then
          ((true, dictSet ledger note_id { r with followup_sent := true }), false)
        else ((false, ledger), false)
    else ((false, ledger), false)

/-- The state mutation of lines 297-315 performed when a qualifying response
`rn` to `note` is found while the record is `r`: flip `responded`, record the
responder, snapshot the reviewer set at the line-301 decision, and dispatch
the response notification when the decision's conditions hold and a Slack id
exists. -/
def transState (cfg : Config) (mr_author : String) (note : Note) (st : St)
    (r : Record) (rn : Note) : St :=
  { st with
    ledger := dictSet st.ledger note.id
      { r with responded := true, responder := some rn.author },
    notifs :=
      if rn.author = mr_author ∧ listHas st.reviewers note.author = true
          ∧ should_track_user cfg note.author = true then
        match get_slack_user_id cfg note.author with
        | some su =>
          st.notifs ++ [⟨NotifKind.response, su, note.author, note.id⟩]
        | none => st.notifs
      else st.notifs,
    snaps := st.snaps ++ [st.reviewers] }

/-- Lines 282-315: scan every note of the discussion as a candidate response
to `note`.  Both timestamps are parsed unconditionally for every non-system
candidate (lines 287-288) and a malformed one raises.  A qualifying first
response flips `responded`, records the responder (lines 297-298), and — when
the responder is the MR author, the note author is in the current reviewer
set and passes the user filter and has a Slack id — dispatches a response
notification (lines 300-315).  The reviewer set is snapshotted whenever the
line-301 decision is evaluated. -/
def scanResponses (cfg : Config) (mr_author : String) (note : Note) :
    List Note → St → St × Bool
  | [], st => (st, false)
  | rn :: rest, st =>
    if rn.system then scanResponses cfg mr_author note rest st
    else
      match rn.created_at, note.created_at with
      | some rt, some nt =>
        match dictFind st.ledger note.id with
        | some r =>
          if rn.author ≠ note.author ∧ rt > nt ∧ r.responded = false then
            scanResponses cfg mr_author note rest (transState cfg mr_author note st r rn)
          else scanResponses cfg mr_author note rest st
        | none => scanResponses cfg mr_author note rest st
      | _, _ => (st, true)

/-- Lines 317-326: the new-comment / follow-up dispatch to the MR author.
At most one message is sent per note and cycle; `is_followup` is
`needs_followup`, so the follow-up template wins when both flags hold. -/
def authorNotif (cfg : Config) (mr_author : String) (note : Note)
    (is_new needs_followup : Bool) : List Notif :=
  if is_new || needs_followup then
    if note.author ≠ mr_author ∧ should_track_user cfg mr_author = true then
      match get_slack_user_id cfg mr_author with
      | some su =>
        [⟨(if needs_followup then NotifKind.followup else NotifKind.newComment),
          su, mr_author, note.id⟩]
      | none => []
    else []
  else []

/-- Lines 248-249: the note's author joins the reviewer set when distinct
from the MR author (this happens before the user filter). -/
def reviewerStep (mr_author : String) (note : Note) (rev : List String) :
    List String :=
  if note.author ≠ mr_author then setAdd rev note.author else rev

/-- Lines 255-267: new-comment detection; creates the fresh record when the
note id is absent from the ledger. -/
def noteLedger1 (project_id : Nat) (mr_iid : Nat) (current_time : Int)
    (note : Note) (ledger : Ledger) : Ledger :=
  if (dictFind ledger note.id).isNone then
    dictSet ledger note.id (freshRecord project_id mr_iid note current_time)
  else ledger

/-- Lines 255-326 for a note that passed the system and user filters:
new-comment detection, follow-up check, response scan, then the dispatch to
the MR author — in source order.  A raise at the follow-up check (line 276)
or during the scan (lines 287-288) aborts before the dispatch. -/
def processTracked (cfg : Config) (project_id : Nat) (mr_author : String)
    (mr_iid : Nat) (current_time now : Int) (d : Discussion) (note : Note)
    (st1 : St) : St × Bool :=
  match followupCheck now (noteLedger1 project_id mr_iid current_time note st1.ledger)
      note.id with
  | ((_, ledger2), true) => ({ st1 with ledger := ledger2 }, true)
  | ((needs_followup, ledger2), false) =>
    match scanResponses cfg mr_author note d.notes { st1 with ledger := ledger2 } with
    | (st2, true) => (st2, true)
    | (st2, false) =>
      ({ st2 with notifs := (st2.notifs ++ authorNotif cfg mr_author note
          (dictFind st1.ledger note.id).isNone needs_followup) }, false)

/-- Lines 239-326: processing of one note.  System notes are skipped
(line 241); the author joins the reviewer set (lines 248-249, before the
user filter); a filtered-out author ends processing of this note
(lines 251-253); otherwise the tracked-note pipeline runs.  The `Bool` is
the raised flag. -/
def processNote (cfg : Config) (project_id : Nat) (mr_author : String)
    (mr_iid : Nat) (current_time now : Int) (d : Discussion) (note : Note)
    (st : St) : St × Bool :=
  if note.system then (st, false)
  else if should_track_user cfg note.author = false then
    ({ st with reviewers := reviewerStep mr_author note st.reviewers }, false)
  else
    processTracked cfg project_id mr_author mr_iid current_time now d note
      { st with reviewers := reviewerStep mr_author note st.reviewers }

/-- The inner `for note in discussion.get('notes', [])` loop; a raise aborts
the remaining iterations. -/
def processNotes (cfg : Config) (project_id : Nat) (mr_author : String)
    (mr_iid : Nat) (current_time now : Int) (d : Discussion) :
    List Note → St → St × Bool
  | [], st => (st, false)
  | n :: rest, st =>
    match processNote cfg project_id mr_author mr_iid current_time now d n st with
    | (st', true) => (st', true)
    | (st', false) =>
      processNotes cfg project_id mr_author mr_iid current_time now d rest st'

/-- The `for discussion in discussions` loop (line 238). -/
def processDiscussions (cfg : Config) (project_id : Nat) (mr_author : String)
    (mr_iid : Nat) (current_time now : Int) :
    List Discussion → St → St × Bool
  | [], st => (st, false)
  | d :: rest, st =>
    match processNotes cfg project_id mr_author mr_iid current_time now d d.notes st with
    | (st', true) => (st', true)
    | (st', false) =>
      processDiscussions cfg project_id mr_author mr_iid current_time now rest st'

/-- Python `reviewers.update(...)` over the declared reviewers (lines 231-233). -/
def initReviewers (declared : List String) : List String :=
  declared.foldl setAdd []

/-- Lines 222-329: processing of one merge request.  The reviewer set starts
from the declared reviewers and is extended while notes are scanned.  Returns
the ledger, the dispatched notifications, the line-301 reviewer-set
snapshots, and the raised flag. -/
def processMR (cfg : Config) (project_id : Nat) (current_time now : Int)
    (mr : MergeRequest) (ledger : Ledger) (notifs : List Notif) :
    (Ledger × List Notif × List (List String)) × Bool :=
  match processDiscussions cfg project_id mr.author mr.iid current_time now
      mr.discussions
      { reviewers := initReviewers mr.reviewers, ledger := ledger,
        notifs := notifs, snaps := [] } with
  | (st, raised) => ((st.ledger, st.notifs, st.snaps), raised)

/-- The `for mr in mrs` loop; an uncaught exception propagates, aborting the
remaining merge requests of the cycle. -/
def processMRs (cfg : Config) (project_id : Nat) (current_time now : Int) :
    List MergeRequest → Ledger × List Notif → (Ledger × List Notif) × Bool
  | [], s => (s, false)
  | mr :: rest, (lg, ns) =>
    match processMR cfg project_id current_time now mr lg ns with
    | ((lg', ns', _), true) => ((lg', ns'), true)
    | ((lg', ns', _), false) =>
      processMRs cfg project_id current_time now rest (lg', ns')

/-- The `for project in projects` loop (line 217). -/
def processProjects (cfg : Config) (current_time now : Int) :
    List Project → Ledger × List Notif → (Ledger × List Notif) × Bool
  | [], s => (s, false)
  | p :: rest, s =>
    match processMRs cfg p.id current_time now p.mrs s with
    | (s', true) => (s', true)
    | (s', false) => processProjects cfg current_time now rest s'

/-- Lines 212-329: `check_for_new_comments`.  `current_time` is the cycle
timestamp captured once (line 215) and stored into `notified_at`; `now` is
the clock read of the follow-up comparison (line 277).  The projects and
their open merge requests and discussions are the fetched API data. -/
def check_for_new_comments (cfg : Config) (current_time now : Int)
    (projects : List Project) (ledger : Ledger) :
    (Ledger × List Notif) × Bool :=
  processProjects cfg current_time now projects (ledger, [])

/-- The data one scheduler cycle operates on. -/
structure CycleInput where
  current_time : Int
  now : Int
  projects : List Project
deriving DecidableEq

/-- Lines 331-345: the `run` loop.  Each cycle's exception is caught at the
loop boundary; the in-memory ledger (including mutations made before a raise)
carries over to the next cycle.  Returns the final ledger and all
notifications dispatched across the cycles. -/
def runCycles (cfg : Config) : List CycleInput → Ledger → Ledger × List Notif
  | [], lg => (lg, [])
  | c :: rest, lg =>
    match check_for_new_comments cfg c.current_time c.now c.projects lg with
    | ((lg', ns), _) =>
      match runCycles cfg rest lg' with
      | (lg'', ns') => (lg'', ns ++ ns')

/-- The line-277 test `datetime.now() - created_at > timedelta(hours=24)` as
a function of a stored parse result. -/
def overdue : Option Int → Int → Bool
  | some t, now => decide (now - t > 86400)
  | none, _ => false

/-- The first qualifying response to `note` in thread order, as described by
the spec: the first non-system candidate by a different author with a
strictly later timestamp (lines 282-296; scanning stops at a malformed
candidate, where the code raises instead). -/
def firstQualifyingResponder (note : Note) : List Note → Option String
  | [] => none
  | rn :: rest =>
    if rn.system then firstQualifyingResponder note rest
    else
      match rn.created_at, note.created_at with
      | some rt, some nt =>
        if rn.author ≠ note.author ∧ rt > nt then some rn.author
        else firstQualifyingResponder note rest
      | _, _ => none

/-- Modelled from the spec (section 4.2 step 2): the fully prebuilt reviewer
set, "declared reviewers ∪ every note author who is not the review-request
author", computed before any note is processed. -/
def fullReviewers (mr : MergeRequest) : List String :=
  mr.discussions.foldl
    (fun acc d => d.notes.foldl
      (fun acc2 n => if n.author ≠ mr.author then setAdd acc2 n.author else acc2)
      acc)
    (initReviewers mr.reviewers)

/-- Modelled from the spec (section 9): the variant of `processMR` whose
reviewer set is computed fully before any notification decision is evaluated,
used to compare against the source's incremental construction. -/
def processMRPrebuilt (cfg : Config) (project_id : Nat) (current_time now : Int)
    (mr : MergeRequest) (ledger : Ledger) (notifs : List Notif) :
    (Ledger × List Notif) × Bool :=
  match processDiscussions cfg project_id mr.author mr.iid current_time now
      mr.discussions
      { reviewers := fullReviewers mr, ledger := ledger,
        notifs := notifs, snaps := [] } with
  | (st, raised) => ((st.ledger, st.notifs), raised)

/-- Counts the response notifications concerning a given note id. -/
def respCount (l : List Notif) (k : String) : Nat :=
  l.countP (fun n => decide (n.kind = NotifKind.response ∧ n.note_id = k))

/-- Does any note anywhere in this cycle's fetched data carry the id `k`? -/
def projectsMention (ps : List Project) (k : String) : Bool :=
  ps.any (fun p => p.mrs.any (fun mr => mr.discussions.any
    (fun d => d.notes.any (fun n => n.id = k))))

/-- Does this cycle's fetched data contain a note with id `k` that the engine
actually processes past the filters (non-system, author tracked)? -/
def processedMention (cfg : Config) (ps : List Project) (k : String) : Bool :=
  ps.any (fun p => p.mrs.any (fun mr => mr.discussions.any
    (fun d => d.notes.any
      (fun n => n.id = k && !n.system && should_track_user cfg n.author))))

/-! Basic lemmas about the dictionary and set operations. -/

theorem dictFind_dictSet_self (l : Ledger) (k : String) (v : Record) :
    dictFind (dictSet l k v) k = some v := by
  induction l with
  | nil => simp [dictSet, dictFind]
  | cons p rest ih =>
    obtain ⟨k', v'⟩ := p
    by_cases h : k' = k
    · simp [dictSet, dictFind, h]
    · simp [dictSet, dictFind, h, ih]

theorem dictFind_dictSet_ne (l : Ledger) (k k' : String) (v : Record)
    (h : k' ≠ k) : dictFind (dictSet l k v) k' = dictFind l k' := by
  have hne : k ≠ k' := fun hh => h hh.symm
  induction l with
  | nil => simp [dictSet, dictFind, hne]
  | cons p rest ih =>
    obtain ⟨k'', v''⟩ := p
    by_cases h2 : k'' = k
    · subst h2
      simp [dictSet, dictFind, hne]
    · by_cases h3 : k'' = k'
      · simp [dictSet, dictFind, h2, h3, h]
      · simp [dictSet, dictFind, h2, h3, ih]

theorem listHas_setAdd_self (s : List String) (x : String) :
    listHas (setAdd s x) x = true := by
  unfold setAdd
  by_cases h : listHas s x
  · simp [h]
  · simp only [h, if_false]
    induction s with
    | nil => simp [listHas]
    | cons y rest ih =>
      by_cases h2 : y = x
      · simp [listHas, h2]
      · simp only [listHas, h2, if_false] at h ⊢
        exact ih h

/-! Record evolution: everything a cycle may ever do to an existing ledger
record.  Identity fields never change; a `responded` record is frozen;
`followup_sent` never reverts; `responder` changes only at the moment
`responded` flips to true. -/

structure RecEvol (r r' : Record) : Prop where
  project_id_eq : r'.project_id = r.project_id
  mr_iid_eq : r'.mr_iid = r.mr_iid
  author_eq : r'.author = r.author
  created_at_eq : r'.created_at = r.created_at
  notified_at_eq : r'.notified_at = r.notified_at
  frozen : r.responded = true → r' = r
  followup_mono : r.followup_sent = true → r'.followup_sent = true
  responder_stable : r.responded = true ∨ r'.responded = false →
    r'.responder = r.responder

theorem RecEvol.refl (r : Record) : RecEvol r r :=
  ⟨Eq.refl _, Eq.refl _, Eq.refl _, Eq.refl _, Eq.refl _,
   fun _ => Eq.refl _, fun h => h, fun _ => Eq.refl _⟩

theorem RecEvol.trans {a b c : Record} (h1 : RecEvol a b) (h2 : RecEvol b c) :
    RecEvol a c := by
  refine ⟨h2.project_id_eq.trans h1.project_id_eq,
    h2.mr_iid_eq.trans h1.mr_iid_eq, h2.author_eq.trans h1.author_eq,
    h2.created_at_eq.trans h1.created_at_eq,
    h2.notified_at_eq.trans h1.notified_at_eq, ?_, ?_, ?_⟩
  · intro ha
    have hb : b = a := h1.frozen ha
    have : c = b := h2.frozen (hb ▸ ha)
    exact this.trans hb
  · intro ha
    exact h2.followup_mono (h1.followup_mono ha)
  · intro h
    rcases h with ha | hc
    · have hb : b = a := h1.frozen ha
      have : c = b := h2.frozen (hb ▸ ha)
      rw [this, hb]
    · have hb : b.responded = false := by
        by_contra hb
        have hb' : b.responded = true := by
          cases hbr : b.responded
          · exact absurd hbr hb
          · rfl
        have : c = b := h2.frozen hb'
        rw [this] at hc
        rw [hc] at hb'
        exact Bool.false_ne_true hb'
      have e1 : c.responder = b.responder := h2.responder_stable (Or.inr hc)
      have e2 : b.responder = a.responder :=
        h1.responder_stable (Or.inr hb)
      exact e1.trans e2

/-! Lemmas about the response scan (lines 282-315). -/

theorem transState_reviewers (cfg : Config) (a : String) (note : Note)
    (st : St) (r : Record) (rn : Note) :
    (transState cfg a note st r rn).reviewers = st.reviewers := rfl

theorem transState_ledger (cfg : Config) (a : String) (note : Note)
    (st : St) (r : Record) (rn : Note) :
    (transState cfg a note st r rn).ledger =
      dictSet st.ledger note.id
        { r with responded := true, responder := some rn.author } := rfl

theorem scan_reviewers_eq (cfg : Config) (a : String) (note : Note)
    (cands : List Note) (st : St) :
    ((scanResponses cfg a note cands st).1).reviewers = st.reviewers := by
  induction cands generalizing st with
  | nil => simp [scanResponses]
  | cons rn rest ih =>
    simp only [scanResponses]
    split
    · exact ih st
    · split
      · split
        · split
          · exact ih _
          · exact ih _
        · exact ih _
      · rfl

theorem scan_find_ne (cfg : Config) (a : String) (note : Note)
    (cands : List Note) (st : St) (k : String) (hk : k ≠ note.id) :
    dictFind ((scanResponses cfg a note cands st).1).ledger k =
      dictFind st.ledger k := by
  induction cands generalizing st with
  | nil => simp [scanResponses]
  | cons rn rest ih =>
    simp only [scanResponses]
    split
    · exact ih st
    · split
      · split
        · split
          · rw [ih]
            exact dictFind_dictSet_ne _ _ _ _ hk
          · exact ih _
        · exact ih _
      · rfl

/-- What the scan may do to the record of the note under scrutiny. -/
def RespUpd (r r' : Record) : Prop :=
  r' = r ∨ (r.responded = false ∧
    ∃ a2, r' = { r with responded := true, responder := some a2 })

theorem scan_find_some (cfg : Config) (a : String) (note : Note)
    (cands : List Note) (st : St) (r : Record)
    (h : dictFind st.ledger note.id = some r) :
    ∃ r', dictFind ((scanResponses cfg a note cands st).1).ledger note.id =
      some r' ∧ RespUpd r r' := by
  induction cands generalizing st r with
  | nil => exact ⟨r, by simpa [scanResponses] using h, Or.inl rfl⟩
  | cons rn rest ih =>
    simp only [scanResponses]
    split
    case isTrue => exact ih st r h
    case isFalse =>
      split
      case h_2 => exact ⟨r, by simpa using h, Or.inl rfl⟩
      case h_1 rt nt heq1 heq2 =>
        split
        case h_2 hfind =>
          rw [h] at hfind
          exact absurd hfind (by simp)
        case h_1 r0 hfind =>
          rw [h] at hfind
          injection hfind with hfind
          subst hfind
          split
          case isFalse hcond => exact ih st r h
          case isTrue hcond =>
            obtain ⟨r', hr', hupd⟩ := ih (transState cfg a note st r rn)
              { r with responded := true, responder := some rn.author }
              (by rw [transState_ledger]; exact dictFind_dictSet_self _ _ _)
            refine ⟨r', hr', ?_⟩
            rcases hupd with rfl | ⟨hresp, a3, rfl⟩
            · exact Or.inr ⟨hcond.2.2, rn.author, rfl⟩
            · simp at hresp

theorem scan_frozen (cfg : Config) (a : String) (note : Note)
    (cands : List Note) (st : St) (r : Record)
    (h : dictFind st.ledger note.id = some r) (hr : r.responded = true) :
    dictFind ((scanResponses cfg a note cands st).1).ledger note.id = some r := by
  obtain ⟨r', hr', hupd⟩ := scan_find_some cfg a note cands st r h
  rcases hupd with rfl | ⟨hresp, _, _⟩
  · exact hr'
  · rw [hr] at hresp
    exact absurd hresp (by simp)

theorem scan_find_none (cfg : Config) (a : String) (note : Note)
    (cands : List Note) (st : St)
    (h : dictFind st.ledger note.id = none) :
    dictFind ((scanResponses cfg a note cands st).1).ledger note.id = none := by
  induction cands generalizing st with
  | nil => simpa [scanResponses] using h
  | cons rn rest ih =>
    simp only [scanResponses]
    split
    case isTrue => exact ih st h
    case isFalse =>
      split
      case h_2 => simpa using h
      case h_1 rt nt heq1 heq2 =>
        split
        case h_2 hfind => exact ih st h
        case h_1 r0 hfind =>
          rw [h] at hfind
          exact absurd hfind (by simp)

theorem scan_first_qualifying (cfg : Config) (a : String) (note : Note)
    (cands : List Note) (st : St) (r : Record)
    (h : dictFind st.ledger note.id = some r) (hr : r.responded = false)
    (hok : (scanResponses cfg a note cands st).2 = false) :
    dictFind ((scanResponses cfg a note cands st).1).ledger note.id =
      some (match firstQualifyingResponder note cands with
            | some a2 => { r with responded := true, responder := some a2 }
            | none => r) := by
  induction cands generalizing st with
  | nil => simpa [scanResponses, firstQualifyingResponder] using h
  | cons rn rest ih =>
    by_cases hsys : rn.system
    · rw [show (scanResponses cfg a note (rn :: rest) st) =
          scanResponses cfg a note rest st by simp [scanResponses, hsys],
        show firstQualifyingResponder note (rn :: rest) =
          firstQualifyingResponder note rest by
            simp [firstQualifyingResponder, hsys]]
      rw [show (scanResponses cfg a note (rn :: rest) st) =
          scanResponses cfg a note rest st by simp [scanResponses, hsys]] at hok
      exact ih st h hok
    · rcases h1 : rn.created_at with _ | rt
      · exfalso
        rw [show (scanResponses cfg a note (rn :: rest) st) = (st, true) by
          simp [scanResponses, hsys, h1]] at hok
        simp at hok
      · rcases h2 : note.created_at with _ | nt
        · exfalso
          rw [show (scanResponses cfg a note (rn :: rest) st) = (st, true) by
            simp [scanResponses, hsys, h1, h2]] at hok
          simp at hok
        · by_cases hcond : rn.author ≠ note.author ∧ rt > nt ∧ r.responded = false
          · have hscan : scanResponses cfg a note (rn :: rest) st =
                scanResponses cfg a note rest (transState cfg a note st r rn) := by
              simp [scanResponses, hsys, h1, h2, h, hcond]
            have hfq : firstQualifyingResponder note (rn :: rest) = some rn.author := by
              simp [firstQualifyingResponder, hsys, h1, h2, hcond.1, hcond.2.1]
            rw [hscan, hfq]
            exact scan_frozen cfg a note rest _ _
              (by rw [transState_ledger]; exact dictFind_dictSet_self _ _ _) rfl
          · have hne : ¬(rn.author ≠ note.author ∧ rt > nt) := by
              intro hx
              exact hcond ⟨hx.1, hx.2, hr⟩
            have hscan : scanResponses cfg a note (rn :: rest) st =
                scanResponses cfg a note rest st := by
              simp [scanResponses, hsys, h1, h2, h, hcond]
            have hfq : firstQualifyingResponder note (rn :: rest) =
                firstQualifyingResponder note rest := by
              simp [firstQualifyingResponder, hsys, h1, h2, hne]
            rw [hscan, hfq]
            rw [hscan] at hok
            exact ih st h hok

theorem scan_notifs_char (cfg : Config) (a : String) (note : Note)
    (cands : List Note) (st : St) :
    ∃ extra, ((scanResponses cfg a note cands st).1).notifs = st.notifs ++ extra ∧
      (extra = [] ∨
        ∃ su r r', extra = [⟨NotifKind.response, su, note.author, note.id⟩] ∧
          get_slack_user_id cfg note.author = some su ∧
          should_track_user cfg note.author = true ∧
          listHas st.reviewers note.author = true ∧
          a ≠ note.author ∧
          dictFind st.ledger note.id = some r ∧ r.responded = false ∧
          dictFind ((scanResponses cfg a note cands st).1).ledger note.id =
            some r' ∧ r'.responded = true ∧ r'.responder = some a) := by
  induction cands generalizing st with
  | nil => exact ⟨[], by simp [scanResponses], Or.inl rfl⟩
  | cons rn rest ih =>
    by_cases hsys : rn.system
    · rw [show (scanResponses cfg a note (rn :: rest) st) =
        scanResponses cfg a note rest st by simp [scanResponses, hsys]]
      exact ih st
    · rcases h1 : rn.created_at with _ | rt
      · rw [show (scanResponses cfg a note (rn :: rest) st) = (st, true) by
          simp [scanResponses, hsys, h1]]
        exact ⟨[], by simp, Or.inl rfl⟩
      · rcases h2 : note.created_at with _ | nt
        · rw [show (scanResponses cfg a note (rn :: rest) st) = (st, true) by
            simp [scanResponses, hsys, h1, h2]]
          exact ⟨[], by simp, Or.inl rfl⟩
        · by_cases h3e : (dictFind st.ledger note.id).isSome
          · obtain ⟨r, h3⟩ := Option.isSome_iff_exists.mp h3e
            by_cases hcond : rn.author ≠ note.author ∧ rt > nt ∧ r.responded = false
            · have hscan : scanResponses cfg a note (rn :: rest) st =
                  scanResponses cfg a note rest (transState cfg a note st r rn) := by
                simp [scanResponses, hsys, h1, h2, h3, hcond]
              have hfrozen : dictFind ((scanResponses cfg a note rest
                  (transState cfg a note st r rn)).1).ledger note.id =
                  some { r with responded := true, responder := some rn.author } :=
                scan_frozen cfg a note rest _ _
                  (by rw [transState_ledger]; exact dictFind_dictSet_self _ _ _) rfl
              have htrf : dictFind (transState cfg a note st r rn).ledger note.id =
                  some { r with responded := true, responder := some rn.author } := by
                rw [transState_ledger]
                exact dictFind_dictSet_self _ _ _
              obtain ⟨extra', hnot', hcase'⟩ := ih (transState cfg a note st r rn)
              have hextra' : extra' = [] := by
                rcases hcase' with he |
                  ⟨su, r2, r3, _, _, _, _, _, hf2, hresp2, _⟩
                · exact he
                · rw [htrf] at hf2
                  injection hf2 with hf2
                  rw [← hf2] at hresp2
                  simp at hresp2
              subst hextra'
              rw [hscan, hnot']
              simp only [List.append_nil]
              by_cases hdec : rn.author = a ∧ listHas st.reviewers note.author = true
                  ∧ should_track_user cfg note.author = true
              · have hanea : a ≠ note.author := hdec.1 ▸ hcond.1
                cases hmap : get_slack_user_id cfg note.author with
                | none =>
                  refine ⟨[], ?_, Or.inl rfl⟩
                  simp [transState, hdec, hmap]
                | some su =>
                  refine ⟨[⟨NotifKind.response, su, note.author, note.id⟩], ?_, ?_⟩
                  · simp [transState, hdec, hmap]
                  · exact Or.inr ⟨su, r,
                      { r with responded := true, responder := some rn.author },
                      rfl, rfl, hdec.2.2, hdec.2.1, hanea, h3, hcond.2.2,
                      hfrozen, rfl, by rw [hdec.1]⟩
              · refine ⟨[], ?_, Or.inl rfl⟩
                simp [transState, hdec]
            · have hscan : scanResponses cfg a note (rn :: rest) st =
                  scanResponses cfg a note rest st := by
                simp [scanResponses, hsys, h1, h2, h3, hcond]
              rw [hscan]
              exact ih st
          · have h3 : dictFind st.ledger note.id = none :=
              Option.not_isSome_iff_eq_none.mp h3e
            have hscan : scanResponses cfg a note (rn :: rest) st =
                scanResponses cfg a note rest st := by
              simp [scanResponses, hsys, h1, h2, h3]
            rw [hscan]
            exact ih st

theorem scan_raise (cfg : Config) (a : String) (note : Note)
    (cands : List Note) (st : St) (c : Note) (hc : c ∈ cands)
    (hcsys : c.system = false) (hmal : c.created_at = none) :
    (scanResponses cfg a note cands st).2 = true := by
  induction cands generalizing st with
  | nil => cases hc
  | cons rn rest ih =>
    rcases List.mem_cons.mp hc with rfl | hc'
    · simp [scanResponses, hcsys, hmal]
    · by_cases hsys : rn.system
      · rw [show (scanResponses cfg a note (rn :: rest) st) =
          scanResponses cfg a note rest st by simp [scanResponses, hsys]]
        exact ih st hc'
      · rcases h1 : rn.created_at with _ | rt
        · simp [scanResponses, hsys, h1]
        · rcases h2 : note.created_at with _ | nt
          · simp [scanResponses, hsys, h1, h2]
          · rcases h3 : dictFind st.ledger note.id with _ | r
            · rw [show (scanResponses cfg a note (rn :: rest) st) =
                scanResponses cfg a note rest st by
                  simp [scanResponses, hsys, h1, h2, h3]]
              exact ih st hc'
            · by_cases hcond : rn.author ≠ note.author ∧ rt > nt ∧ r.responded = false
              · rw [show (scanResponses cfg a note (rn :: rest) st) =
                  scanResponses cfg a note rest (transState cfg a note st r rn) by
                    simp [scanResponses, hsys, h1, h2, h3, hcond]]
                exact ih _ hc'
              · rw [show (scanResponses cfg a note (rn :: rest) st) =
                  scanResponses cfg a note rest st by
                    simp [scanResponses, hsys, h1, h2, h3, hcond]]
                exact ih st hc'

theorem scan_ledger_congr (cfg1 cfg2 : Config) (a1 a2 : String) (note : Note)
    (cands : List Note) (st1 st2 : St) (h : st1.ledger = st2.ledger) :
    ((scanResponses cfg1 a1 note cands st1).1).ledger =
      ((scanResponses cfg2 a2 note cands st2).1).ledger ∧
    (scanResponses cfg1 a1 note cands st1).2 =
      (scanResponses cfg2 a2 note cands st2).2 := by
  induction cands generalizing st1 st2 with
  | nil => simpa [scanResponses] using h
  | cons rn rest ih =>
    by_cases hsys : rn.system
    · rw [show (scanResponses cfg1 a1 note (rn :: rest) st1) =
        scanResponses cfg1 a1 note rest st1 by simp [scanResponses, hsys],
        show (scanResponses cfg2 a2 note (rn :: rest) st2) =
        scanResponses cfg2 a2 note rest st2 by simp [scanResponses, hsys]]
      exact ih st1 st2 h
    · rcases h1 : rn.created_at with _ | rt
      · simp [scanResponses, hsys, h1, h]
      · rcases h2 : note.created_at with _ | nt
        · simp [scanResponses, hsys, h1, h2, h]
        · rcases h3 : dictFind st1.ledger note.id with _ | r
          · have h3' : dictFind st2.ledger note.id = none := by rw [← h, h3]
            rw [show (scanResponses cfg1 a1 note (rn :: rest) st1) =
              scanResponses cfg1 a1 note rest st1 by
                simp [scanResponses, hsys, h1, h2, h3],
              show (scanResponses cfg2 a2 note (rn :: rest) st2) =
              scanResponses cfg2 a2 note rest st2 by
                simp [scanResponses, hsys, h1, h2, h3']]
            exact ih st1 st2 h
          · have h3' : dictFind st2.ledger note.id = some r := by rw [← h, h3]
            by_cases hcond : rn.author ≠ note.author ∧ rt > nt ∧ r.responded = false
            · rw [show (scanResponses cfg1 a1 note (rn :: rest) st1) =
                scanResponses cfg1 a1 note rest (transState cfg1 a1 note st1 r rn) by
                  simp [scanResponses, hsys, h1, h2, h3, hcond],
                show (scanResponses cfg2 a2 note (rn :: rest) st2) =
                scanResponses cfg2 a2 note rest (transState cfg2 a2 note st2 r rn) by
                  simp [scanResponses, hsys, h1, h2, h3', hcond]]
              exact ih _ _ (by rw [transState_ledger, transState_ledger, h])
            · rw [show (scanResponses cfg1 a1 note (rn :: rest) st1) =
                scanResponses cfg1 a1 note rest st1 by
                  simp [scanResponses, hsys, h1, h2, h3, hcond],
                show (scanResponses cfg2 a2 note (rn :: rest) st2) =
                scanResponses cfg2 a2 note rest st2 by
                  simp [scanResponses, hsys, h1, h2, h3', hcond]]
              exact ih st1 st2 h

theorem scan_notifs_congr (cfg : Config) (a : String) (note : Note)
    (cands : List Note) (st1 st2 : St) (hL : st1.ledger = st2.ledger)
    (hN : st1.notifs = st2.notifs)
    (hrev : note.author ≠ a →
      listHas st1.reviewers note.author = listHas st2.reviewers note.author) :
    ((scanResponses cfg a note cands st1).1).notifs =
      ((scanResponses cfg a note cands st2).1).notifs := by
  induction cands generalizing st1 st2 with
  | nil => simpa [scanResponses] using hN
  | cons rn rest ih =>
    by_cases hsys : rn.system
    · rw [show (scanResponses cfg a note (rn :: rest) st1) =
        scanResponses cfg a note rest st1 by simp [scanResponses, hsys],
        show (scanResponses cfg a note (rn :: rest) st2) =
        scanResponses cfg a note rest st2 by simp [scanResponses, hsys]]
      exact ih st1 st2 hL hN hrev
    · rcases h1 : rn.created_at with _ | rt
      · simpa [scanResponses, hsys, h1] using hN
      · rcases h2 : note.created_at with _ | nt
        · simpa [scanResponses, hsys, h1, h2] using hN
        · rcases h3 : dictFind st1.ledger note.id with _ | r
          · have h3' : dictFind st2.ledger note.id = none := by rw [← hL, h3]
            rw [show (scanResponses cfg a note (rn :: rest) st1) =
              scanResponses cfg a note rest st1 by
                simp [scanResponses, hsys, h1, h2, h3],
              show (scanResponses cfg a note (rn :: rest) st2) =
              scanResponses cfg a note rest st2 by
                simp [scanResponses, hsys, h1, h2, h3']]
            exact ih st1 st2 hL hN hrev
          · have h3' : dictFind st2.ledger note.id = some r := by rw [← hL, h3]
            by_cases hcond : rn.author ≠ note.author ∧ rt > nt ∧ r.responded = false
            · rw [show (scanResponses cfg a note (rn :: rest) st1) =
                scanResponses cfg a note rest (transState cfg a note st1 r rn) by
                  simp [scanResponses, hsys, h1, h2, h3, hcond],
                show (scanResponses cfg a note (rn :: rest) st2) =
                scanResponses cfg a note rest (transState cfg a note st2 r rn) by
                  simp [scanResponses, hsys, h1, h2, h3', hcond]]
              refine ih _ _ (by rw [transState_ledger, transState_ledger, hL]) ?_
                (by rw [transState_reviewers, transState_reviewers]; exact hrev)
              by_cases hdec1 : rn.author = a
              · have hna : note.author ≠ a := fun hx => hcond.1 (hdec1.trans hx.symm)
                have hhas := hrev hna
                simp only [transState, hdec1, hhas, hN]
              · simp only [transState, hdec1]
                simp [hdec1, hN]
            · rw [show (scanResponses cfg a note (rn :: rest) st1) =
                scanResponses cfg a note rest st1 by
                  simp [scanResponses, hsys, h1, h2, h3, hcond],
                show (scanResponses cfg a note (rn :: rest) st2) =
                scanResponses cfg a note rest st2 by
                  simp [scanResponses, hsys, h1, h2, h3', hcond]]
              exact ih st1 st2 hL hN hrev

/-! Lemmas about the follow-up check and new-comment detection. -/

theorem fc_spec (now : Int) (L : Ledger) (nid : String) (r : Record)
    (h : dictFind L nid = some r) :
    followupCheck now L nid =
      if r.responded = false ∧ r.followup_sent = false then
        match r.created_at with
        | none => ((false, L), true)
        | some t =>
          if now - t > 86400 then
            ((true, dictSet L nid { r with followup_sent := true }), false)
          else ((false, L), false)
      else ((false, L), false) := by
  unfold followupCheck
  rw [h]

theorem fc_find_ne (now : Int) (L : Ledger) (nid k : String) (hk : k ≠ nid) :
    dictFind (followupCheck now L nid).1.2 k = dictFind L k := by
  unfold followupCheck
  split
  · rfl
  · split
    · split
      · rfl
      · split
        · exact dictFind_dictSet_ne _ _ _ _ hk
        · rfl
    · rfl

theorem noteLedger1_find_ne (pid : Nat) (iid : Nat) (ct : Int) (note : Note)
    (L : Ledger) (k : String) (hk : k ≠ note.id) :
    dictFind (noteLedger1 pid iid ct note L) k = dictFind L k := by
  unfold noteLedger1
  split
  · exact dictFind_dictSet_ne _ _ _ _ hk
  · rfl

theorem noteLedger1_find_self (pid : Nat) (iid : Nat) (ct : Int) (note : Note)
    (L : Ledger) :
    dictFind (noteLedger1 pid iid ct note L) note.id =
      some ((dictFind L note.id).getD (freshRecord pid iid note ct)) := by
  unfold noteLedger1
  cases h : dictFind L note.id with
  | none => simp [h, dictFind_dictSet_self]
  | some r => simp [h]

/-! Decomposition of `processNote` into its branches. -/

theorem processNote_system_eq (cfg : Config) (pid : Nat) (a : String)
    (iid : Nat) (ct now : Int) (d : Discussion) (note : Note) (st : St)
    (hsys : note.system = true) :
    processNote cfg pid a iid ct now d note st = (st, false) := by
  simp [processNote, hsys]

theorem processNote_filtered_eq (cfg : Config) (pid : Nat) (a : String)
    (iid : Nat) (ct now : Int) (d : Discussion) (note : Note) (st : St)
    (hsys : note.system = false)
    (htrk : should_track_user cfg note.author = false) :
    processNote cfg pid a iid ct now d note st =
      ({ st with reviewers := reviewerStep a note st.reviewers }, false) := by
  simp [processNote, hsys, htrk]

theorem processNote_tracked_eq (cfg : Config) (pid : Nat) (a : String)
    (iid : Nat) (ct now : Int) (d : Discussion) (note : Note) (st : St)
    (hsys : note.system = false)
    (htrk : should_track_user cfg note.author = true) :
    processNote cfg pid a iid ct now d note st =
      processTracked cfg pid a iid ct now d note
        { st with reviewers := reviewerStep a note st.reviewers } := by
  simp [processNote, hsys, htrk]

theorem processTracked_raiseF_eq (cfg : Config) (pid : Nat) (a : String)
    (iid : Nat) (ct now : Int) (d : Discussion) (note : Note) (st1 : St)
    (fu : Bool) (L2 : Ledger)
    (hfc : followupCheck now (noteLedger1 pid iid ct note st1.ledger) note.id =
      ((fu, L2), true)) :
    processTracked cfg pid a iid ct now d note st1 =
      ({ st1 with ledger := L2 }, true) := by
  simp [processTracked, hfc]

theorem processTracked_raiseS_eq (cfg : Config) (pid : Nat) (a : String)
    (iid : Nat) (ct now : Int) (d : Discussion) (note : Note) (st1 : St)
    (fu : Bool) (L2 : Ledger) (st2 : St)
    (hfc : followupCheck now (noteLedger1 pid iid ct note st1.ledger) note.id =
      ((fu, L2), false))
    (hscan : scanResponses cfg a note d.notes { st1 with ledger := L2 } =
      (st2, true)) :
    processTracked cfg pid a iid ct now d note st1 = (st2, true) := by
  simp [processTracked, hfc, hscan]

theorem processTracked_ok_eq (cfg : Config) (pid : Nat) (a : String)
    (iid : Nat) (ct now : Int) (d : Discussion) (note : Note) (st1 : St)
    (fu : Bool) (L2 : Ledger) (st2 : St)
    (hfc : followupCheck now (noteLedger1 pid iid ct note st1.ledger) note.id =
      ((fu, L2), false))
    (hscan : scanResponses cfg a note d.notes { st1 with ledger := L2 } =
      (st2, false)) :
    processTracked cfg pid a iid ct now d note st1 =
      ({ st2 with notifs := (st2.notifs ++ authorNotif cfg a note
          (dictFind st1.ledger note.id).isNone fu) }, false) := by
  simp [processTracked, hfc, hscan]

/-! Record evolution through one note's processing. -/

theorem recEvol_followup (r : Record) (h : r.responded = false) :
    RecEvol r { r with followup_sent := true } := by
  refine ⟨rfl, rfl, rfl, rfl, rfl, ?_, fun _ => rfl, fun _ => rfl⟩
  intro hr
  rw [h] at hr
  exact absurd hr (by simp)

theorem respUpd_recEvol (r r' : Record) (h : RespUpd r r') : RecEvol r r' := by
  rcases h with rfl | ⟨hresp, a2, rfl⟩
  · exact RecEvol.refl _
  · refine ⟨rfl, rfl, rfl, rfl, rfl, ?_, fun hf => hf, ?_⟩
    · intro hr
      rw [hresp] at hr
      exact absurd hr (by simp)
    · intro hp
      rcases hp with hr | hr

      · rw [hresp] at hr
        exact absurd hr (by simp)
      · exact absurd hr (by simp)

theorem fc_evol (now : Int) (L : Ledger) (nid : String) (r : Record)
    (h : dictFind L nid = some r) :
    ∃ r2, dictFind (followupCheck now L nid).1.2 nid = some r2 ∧ RecEvol r r2 := by
  rw [fc_spec now L nid r h]
  by_cases hrf : r.responded = false ∧ r.followup_sent = false
  · rw [if_pos hrf]
    cases hca : r.created_at with
    | none => simpa [hca] using ⟨r, h, RecEvol.refl r⟩
    | some t =>
      by_cases hod : now - t > 86400
      · refine ⟨{ r with followup_sent := true }, ?_, recEvol_followup r hrf.1⟩
        simp only [hca]
        rw [if_pos hod]
        exact dictFind_dictSet_self L nid _
      · refine ⟨r, ?_, RecEvol.refl r⟩
        simp only [hca]
        rw [if_neg hod]
        exact h
  · rw [if_neg hrf]
    exact ⟨r, h, RecEvol.refl r⟩

theorem processTracked_find_ne (cfg : Config) (pid : Nat) (a : String)
    (iid : Nat) (ct now : Int) (d : Discussion) (note : Note) (st1 : St)
    (k : String) (hk : k ≠ note.id) :
    dictFind ((processTracked cfg pid a iid ct now d note st1).1).ledger k =
      dictFind st1.ledger k := by
  rcases hfc : followupCheck now (noteLedger1 pid iid ct note st1.ledger) note.id
    with ⟨⟨fu, L2⟩, raised⟩
  have hL2 : dictFind L2 k = dictFind st1.ledger k := by
    have h1 := fc_find_ne now (noteLedger1 pid iid ct note st1.ledger) note.id k hk
    rw [hfc] at h1
    rw [h1]
    exact noteLedger1_find_ne pid iid ct note st1.ledger k hk
  cases raised with
  | true =>
    rw [processTracked_raiseF_eq cfg pid a iid ct now d note st1 fu L2 hfc]
    exact hL2
  | false =>
    rcases hscan : scanResponses cfg a note d.notes { st1 with ledger := L2 }
      with ⟨st2, raisedS⟩
    have hs : dictFind st2.ledger k = dictFind L2 k := by
      have h2 := scan_find_ne cfg a note d.notes { st1 with ledger := L2 } k hk
      rw [hscan] at h2
      exact h2
    cases raisedS with
    | true =>
      rw [processTracked_raiseS_eq cfg pid a iid ct now d note st1 fu L2 st2 hfc hscan]
      exact hs.trans hL2
    | false =>
      rw [processTracked_ok_eq cfg pid a iid ct now d note st1 fu L2 st2 hfc hscan]
      exact hs.trans hL2

theorem processTracked_evol (cfg : Config) (pid : Nat) (a : String)
    (iid : Nat) (ct now : Int) (d : Discussion) (note : Note) (st1 : St)
    (r : Record) (h : dictFind st1.ledger note.id = some r) :
    ∃ r', dictFind ((processTracked cfg pid a iid ct now d note st1).1).ledger
      note.id = some r' ∧ RecEvol r r' := by
  have hL1 : dictFind (noteLedger1 pid iid ct note st1.ledger) note.id = some r := by
    rw [noteLedger1_find_self, h]
    rfl
  rcases hfc : followupCheck now (noteLedger1 pid iid ct note st1.ledger) note.id
    with ⟨⟨fu, L2⟩, raised⟩
  obtain ⟨r2, hr2, hev2⟩ := fc_evol now (noteLedger1 pid iid ct note st1.ledger)
    note.id r hL1
  rw [hfc] at hr2
  cases raised with
  | true =>
    rw [processTracked_raiseF_eq cfg pid a iid ct now d note st1 fu L2 hfc]
    exact ⟨r2, hr2, hev2⟩
  | false =>
    rcases hscan : scanResponses cfg a note d.notes { st1 with ledger := L2 }
      with ⟨st2, raisedS⟩
    obtain ⟨r3, hr3, hupd⟩ := scan_find_some cfg a note d.notes
      { st1 with ledger := L2 } r2 hr2
    rw [hscan] at hr3
    have hev3 : RecEvol r r3 := hev2.trans (respUpd_recEvol r2 r3 hupd)
    cases raisedS with
    | true =>
      rw [processTracked_raiseS_eq cfg pid a iid ct now d note st1 fu L2 st2 hfc hscan]
      exact ⟨r3, hr3, hev3⟩
    | false =>
      rw [processTracked_ok_eq cfg pid a iid ct now d note st1 fu L2 st2 hfc hscan]
      exact ⟨r3, hr3, hev3⟩

theorem processNote_find_ne (cfg : Config) (pid : Nat) (a : String)
    (iid : Nat) (ct now : Int) (d : Discussion) (note : Note) (st : St)
    (k : String) (hk : k ≠ note.id) :
    dictFind ((processNote cfg pid a iid ct now d note st).1).ledger k =
      dictFind st.ledger k := by
  by_cases hsys : note.system = true
  · rw [processNote_system_eq cfg pid a iid ct now d note st hsys]
  · have hsys' : note.system = false := by simpa using hsys
    by_cases htrk : should_track_user cfg note.author = true
    · rw [processNote_tracked_eq cfg pid a iid ct now d note st hsys' htrk]
      exact processTracked_find_ne cfg pid a iid ct now d note _ k hk
    · have htrk' : should_track_user cfg note.author = false := by simpa using htrk
      rw [processNote_filtered_eq cfg pid a iid ct now d note st hsys' htrk']

theorem processNote_evol (cfg : Config) (pid : Nat) (a : String)
    (iid : Nat) (ct now : Int) (d : Discussion) (note : Note) (st : St)
    (k : String) (r : Record) (h : dictFind st.ledger k = some r) :
    ∃ r', dictFind ((processNote cfg pid a iid ct now d note st).1).ledger k =
      some r' ∧ RecEvol r r' := by
  by_cases hk : k = note.id
  · subst hk
    by_cases hsys : note.system = true
    · rw [processNote_system_eq cfg pid a iid ct now d note st hsys]
      exact ⟨r, h, RecEvol.refl r⟩
    · have hsys' : note.system = false := by simpa using hsys
      by_cases htrk : should_track_user cfg note.author = true
      · rw [processNote_tracked_eq cfg pid a iid ct now d note st hsys' htrk]
        exact processTracked_evol cfg pid a iid ct now d note _ r h
      · have htrk' : should_track_user cfg note.author = false := by simpa using htrk
        rw [processNote_filtered_eq cfg pid a iid ct now d note st hsys' htrk']
        exact ⟨r, h, RecEvol.refl r⟩
  · rw [processNote_find_ne cfg pid a iid ct now d note st k hk]
    exact ⟨r, h, RecEvol.refl r⟩

theorem respUpd_followup (r r' : Record) (h : RespUpd r r') :
    r'.followup_sent = r.followup_sent := by
  rcases h with rfl | ⟨_, a2, rfl⟩ <;> rfl

theorem authorNotif_cases (cfg : Config) (a : String) (note : Note)
    (b f : Bool) :
    authorNotif cfg a note b f = [] ∨
      (∃ su, authorNotif cfg a note b f =
        [⟨(if f then NotifKind.followup else NotifKind.newComment), su, a, note.id⟩] ∧
        (b || f) = true ∧ note.author ≠ a ∧
        should_track_user cfg a = true ∧ get_slack_user_id cfg a = some su) := by
  unfold authorNotif
  by_cases h1 : (b || f) = true
  · rw [if_pos h1]
    by_cases h2 : note.author ≠ a ∧ should_track_user cfg a = true
    · rw [if_pos h2]
      cases hmap : get_slack_user_id cfg a with
      | none => exact Or.inl rfl
      | some su => exact Or.inr ⟨su, rfl, h1, h2.1, h2.2, rfl⟩
    · rw [if_neg h2]
      exact Or.inl rfl
  · rw [if_neg h1]
    exact Or.inl rfl

/-- The line-271-277 condition as a function of the record at check time. -/
def needsFollowupFlag (r : Record) (now : Int) : Bool :=
  !r.responded && !r.followup_sent && overdue r.created_at now

theorem fc_fu (now : Int) (L : Ledger) (nid : String) (r : Record)
    (h : dictFind L nid = some r)
    (hok : (followupCheck now L nid).2 = false) :
    (followupCheck now L nid).1.1 = needsFollowupFlag r now := by
  obtain ⟨rp, ri, ra, rc, rnt, rr, rd, rf⟩ := r
  cases rr with
  | true => simp [fc_spec now L nid _ h, needsFollowupFlag]
  | false =>
    cases rf with
    | true => simp [fc_spec now L nid _ h, needsFollowupFlag]
    | false =>
      cases rc with
      | none =>
        rw [fc_spec now L nid _ h] at hok
        simp at hok
      | some t =>
        by_cases hod : now - t > 86400
        · simp [fc_spec now L nid _ h, needsFollowupFlag, overdue, hod]
        · simp [fc_spec now L nid _ h, needsFollowupFlag, overdue, hod]

theorem fc_noraise_followup (now : Int) (L : Ledger) (nid : String) (r : Record)
    (h : dictFind L nid = some r)
    (hok : (followupCheck now L nid).2 = false) :
    ∃ r2, dictFind (followupCheck now L nid).1.2 nid = some r2 ∧
      r2.followup_sent = (r.followup_sent || needsFollowupFlag r now) ∧
      r2.responded = r.responded := by
  obtain ⟨rp, ri, ra, rc, rnt, rr, rd, rf⟩ := r
  cases rr with
  | true =>
    refine ⟨_, ?_, ?_, rfl⟩
    · rw [fc_spec now L nid _ h]
      exact h
    · simp [needsFollowupFlag]
  | false =>
    cases rf with
    | true =>
      refine ⟨_, ?_, ?_, rfl⟩
      · rw [fc_spec now L nid _ h]
        exact h
      · simp [needsFollowupFlag]
    | false =>
      cases rc with
      | none =>
        rw [fc_spec now L nid _ h] at hok
        simp at hok
      | some t =>
        by_cases hod : now - t > 86400
        · exact ⟨⟨rp, ri, ra, some t, rnt, false, rd, true⟩,
            by simp [fc_spec now L nid _ h, hod, dictFind_dictSet_self],
            by simp [needsFollowupFlag, overdue, hod], rfl⟩
        · exact ⟨⟨rp, ri, ra, some t, rnt, false, rd, false⟩,
            by simp [fc_spec now L nid _ h, hod, h],
            by simp [needsFollowupFlag, overdue, hod], rfl⟩

theorem processTracked_evol0 (cfg : Config) (pid : Nat) (a : String)
    (iid : Nat) (ct now : Int) (d : Discussion) (note : Note) (st1 : St) :
    ∃ r', dictFind ((processTracked cfg pid a iid ct now d note st1).1).ledger
      note.id = some r' ∧
      RecEvol ((dictFind st1.ledger note.id).getD (freshRecord pid iid note ct)) r' := by
  have hL1 : dictFind (noteLedger1 pid iid ct note st1.ledger) note.id =
      some ((dictFind st1.ledger note.id).getD (freshRecord pid iid note ct)) :=
    noteLedger1_find_self pid iid ct note st1.ledger
  rcases hfc : followupCheck now (noteLedger1 pid iid ct note st1.ledger) note.id
    with ⟨⟨fu, L2⟩, raised⟩
  obtain ⟨r2, hr2, hev2⟩ := fc_evol now (noteLedger1 pid iid ct note st1.ledger)
    note.id _ hL1
  rw [hfc] at hr2
  cases raised with
  | true =>
    rw [processTracked_raiseF_eq cfg pid a iid ct now d note st1 fu L2 hfc]
    exact ⟨r2, hr2, hev2⟩
  | false =>
    rcases hscan : scanResponses cfg a note d.notes { st1 with ledger := L2 }
      with ⟨st2, raisedS⟩
    obtain ⟨r3, hr3, hupd⟩ := scan_find_some cfg a note d.notes
      { st1 with ledger := L2 } r2 hr2
    rw [hscan] at hr3
    have hev3 := hev2.trans (respUpd_recEvol r2 r3 hupd)
    cases raisedS with
    | true =>
      rw [processTracked_raiseS_eq cfg pid a iid ct now d note st1 fu L2 st2 hfc hscan]
      exact ⟨r3, hr3, hev3⟩
    | false =>
      rw [processTracked_ok_eq cfg pid a iid ct now d note st1 fu L2 st2 hfc hscan]
      exact ⟨r3, hr3, hev3⟩

theorem processNote_creates (cfg : Config) (pid : Nat) (a : String)
    (iid : Nat) (ct now : Int) (d : Discussion) (note : Note) (st : St)
    (hsys : note.system = false)
    (htrk : should_track_user cfg note.author = true) :
    ∃ r', dictFind ((processNote cfg pid a iid ct now d note st).1).ledger
      note.id = some r' ∧
      RecEvol ((dictFind st.ledger note.id).getD (freshRecord pid iid note ct)) r' := by
  rw [processNote_tracked_eq cfg pid a iid ct now d note st hsys htrk]
  exact processTracked_evol0 cfg pid a iid ct now d note _

theorem processNote_keys (cfg : Config) (pid : Nat) (a : String)
    (iid : Nat) (ct now : Int) (d : Discussion) (note : Note) (st : St)
    (k : String) :
    (dictFind ((processNote cfg pid a iid ct now d note st).1).ledger k).isSome =
      ((dictFind st.ledger k).isSome ||
        (decide (k = note.id) && !note.system && should_track_user cfg note.author)) := by
  by_cases hk : k = note.id
  · subst hk
    by_cases hsys : note.system = true
    · rw [processNote_system_eq cfg pid a iid ct now d note st hsys]
      simp [hsys]
    · have hsys' : note.system = false := by simpa using hsys
      by_cases htrk : should_track_user cfg note.author = true
      · rw [processNote_tracked_eq cfg pid a iid ct now d note st hsys' htrk]
        obtain ⟨r', hr', _⟩ := processTracked_evol0 cfg pid a iid ct now d note
          { st with reviewers := reviewerStep a note st.reviewers }
        rw [hr']
        simp [hsys', htrk]
      · have htrk' : should_track_user cfg note.author = false := by simpa using htrk
        rw [processNote_filtered_eq cfg pid a iid ct now d note st hsys' htrk']
        simp [htrk']
  · rw [processNote_find_ne cfg pid a iid ct now d note st k hk]
    simp [hk]

theorem processNote_scan_malformed (cfg : Config) (pid : Nat) (a : String)
    (iid : Nat) (ct now : Int) (d : Discussion) (note : Note) (st : St)
    (c : Note) (hc : c ∈ d.notes) (hcsys : c.system = false)
    (hmal : c.created_at = none)
    (hsys : note.system = false)
    (htrk : should_track_user cfg note.author = true) :
    (processNote cfg pid a iid ct now d note st).2 = true := by
  rw [processNote_tracked_eq cfg pid a iid ct now d note st hsys htrk]
  rcases hfc : followupCheck now (noteLedger1 pid iid ct note
      ({ st with reviewers := reviewerStep a note st.reviewers } : St).ledger) note.id
    with ⟨⟨fu, L2⟩, raised⟩
  cases raised with
  | true =>
    rw [processTracked_raiseF_eq cfg pid a iid ct now d note _ fu L2 hfc]
  | false =>
    rcases hscan : scanResponses cfg a note d.notes
      { ({ st with reviewers := reviewerStep a note st.reviewers } : St) with
        ledger := L2 } with ⟨st2, raisedS⟩
    have hra := scan_raise cfg a note d.notes
      { ({ st with reviewers := reviewerStep a note st.reviewers } : St) with
        ledger := L2 } c hc hcsys hmal
    rw [hscan] at hra
    subst hra
    rw [processTracked_raiseS_eq cfg pid a iid ct now d note _ fu L2 st2 hfc hscan]

theorem processNote_fc_malformed (cfg : Config) (pid : Nat) (a : String)
    (iid : Nat) (ct now : Int) (d : Discussion) (note : Note) (st : St)
    (r : Record) (hfind : dictFind st.ledger note.id = some r)
    (hresp : r.responded = false) (hfu : r.followup_sent = false)
    (hmal : r.created_at = none)
    (hsys : note.system = false)
    (htrk : should_track_user cfg note.author = true) :
    (processNote cfg pid a iid ct now d note st).2 = true := by
  rw [processNote_tracked_eq cfg pid a iid ct now d note st hsys htrk]
  have hL1 : dictFind (noteLedger1 pid iid ct note
      ({ st with reviewers := reviewerStep a note st.reviewers } : St).ledger)
      note.id = some r := by
    rw [noteLedger1_find_self]
    show some ((dictFind st.ledger note.id).getD _) = some r
    rw [hfind]
    rfl
  have hfc : followupCheck now (noteLedger1 pid iid ct note
      ({ st with reviewers := reviewerStep a note st.reviewers } : St).ledger)
      note.id = ((false, noteLedger1 pid iid ct note
        ({ st with reviewers := reviewerStep a note st.reviewers } : St).ledger), true) := by
    rw [fc_spec now _ note.id r hL1]
    rw [if_pos ⟨hresp, hfu⟩, hmal]
  rw [processTracked_raiseF_eq cfg pid a iid ct now d note _ false _ hfc]

/-! Notification bookkeeping through one note's processing. -/

theorem respCount_append (l1 l2 : List Notif) (k : String) :
    respCount (l1 ++ l2) k = respCount l1 k + respCount l2 k :=
  List.countP_append _ _ _

theorem respCount_authorNotif (cfg : Config) (a : String) (note : Note)
    (b f : Bool) (k : String) :
    respCount (authorNotif cfg a note b f) k = 0 := by
  rcases authorNotif_cases cfg a note b f with h | ⟨su, h, _⟩
  · rw [h]
    rfl
  · rw [h]
    cases f <;> simp [respCount]

theorem processNote_followup_eq (cfg : Config) (pid : Nat) (a : String)
    (iid : Nat) (ct now : Int) (d : Discussion) (note : Note) (st st' : St)
    (hsys : note.system = false)
    (htrk : should_track_user cfg note.author = true)
    (hrun : processNote cfg pid a iid ct now d note st = (st', false)) :
    ∃ r', dictFind st'.ledger note.id = some r' ∧
      r'.followup_sent =
        (((dictFind st.ledger note.id).getD (freshRecord pid iid note ct)).followup_sent ||
          needsFollowupFlag
            ((dictFind st.ledger note.id).getD (freshRecord pid iid note ct)) now) := by
  rw [processNote_tracked_eq cfg pid a iid ct now d note st hsys htrk] at hrun
  have hL1 : dictFind (noteLedger1 pid iid ct note
      ({ st with reviewers := reviewerStep a note st.reviewers } : St).ledger)
      note.id = some ((dictFind st.ledger note.id).getD (freshRecord pid iid note ct)) :=
    noteLedger1_find_self pid iid ct note _
  rcases hfc : followupCheck now (noteLedger1 pid iid ct note
      ({ st with reviewers := reviewerStep a note st.reviewers } : St).ledger) note.id
    with ⟨⟨fu, L2⟩, raised⟩
  cases raised with
  | true =>
    rw [processTracked_raiseF_eq cfg pid a iid ct now d note _ fu L2 hfc] at hrun
    exact absurd (congrArg Prod.snd hrun) (by simp)
  | false =>
    obtain ⟨r2, hr2, hfol, hresp⟩ := fc_noraise_followup now _ note.id _ hL1
      (by rw [hfc])
    rw [hfc] at hr2
    rcases hscan : scanResponses cfg a note d.notes
      { ({ st with reviewers := reviewerStep a note st.reviewers } : St) with
        ledger := L2 } with ⟨st2, raisedS⟩
    cases raisedS with
    | true =>
      rw [processTracked_raiseS_eq cfg pid a iid ct now d note _ fu L2 st2 hfc hscan] at hrun
      exact absurd (congrArg Prod.snd hrun) (by simp)
    | false =>
      rw [processTracked_ok_eq cfg pid a iid ct now d note _ fu L2 st2 hfc hscan] at hrun
      obtain ⟨r3, hr3, hupd⟩ := scan_find_some cfg a note d.notes
        { ({ st with reviewers := reviewerStep a note st.reviewers } : St) with
          ledger := L2 } r2 hr2
      rw [hscan] at hr3
      have hst' : st'.ledger = st2.ledger := by
        have := congrArg (fun p => (Prod.fst p).ledger) hrun
        simpa using this.symm
      refine ⟨r3, by rw [hst']; exact hr3, ?_⟩
      rw [respUpd_followup r2 r3 hupd, hfol]

theorem processNote_notifs_char (cfg : Config) (pid : Nat) (a : String)
    (iid : Nat) (ct now : Int) (d : Discussion) (note : Note) (st st' : St)
    (hsys : note.system = false)
    (htrk : should_track_user cfg note.author = true)
    (hrun : processNote cfg pid a iid ct now d note st = (st', false)) :
    ∃ extra, st'.notifs = (st.notifs ++ extra) ++
        authorNotif cfg a note (dictFind st.ledger note.id).isNone
          (needsFollowupFlag
            ((dictFind st.ledger note.id).getD (freshRecord pid iid note ct)) now) ∧
      ∀ n ∈ extra, n.kind = NotifKind.response ∧ n.note_id = note.id := by
  rw [processNote_tracked_eq cfg pid a iid ct now d note st hsys htrk] at hrun
  have hL1 : dictFind (noteLedger1 pid iid ct note
      ({ st with reviewers := reviewerStep a note st.reviewers } : St).ledger)
      note.id = some ((dictFind st.ledger note.id).getD (freshRecord pid iid note ct)) :=
    noteLedger1_find_self pid iid ct note _
  rcases hfc : followupCheck now (noteLedger1 pid iid ct note
      ({ st with reviewers := reviewerStep a note st.reviewers } : St).ledger) note.id
    with ⟨⟨fu, L2⟩, raised⟩
  cases raised with
  | true =>
    rw [processTracked_raiseF_eq cfg pid a iid ct now d note _ fu L2 hfc] at hrun
    exact absurd (congrArg Prod.snd hrun) (by simp)
  | false =>
    have hfu : fu = needsFollowupFlag
        ((dictFind st.ledger note.id).getD (freshRecord pid iid note ct)) now := by
      have := fc_fu now _ note.id _ hL1 (by rw [hfc])
      rw [hfc] at this
      exact this
    rcases hscan : scanResponses cfg a note d.notes
      { ({ st with reviewers := reviewerStep a note st.reviewers } : St) with
        ledger := L2 } with ⟨st2, raisedS⟩
    cases raisedS with
    | true =>
      rw [processTracked_raiseS_eq cfg pid a iid ct now d note _ fu L2 st2 hfc hscan] at hrun
      exact absurd (congrArg Prod.snd hrun) (by simp)
    | false =>
      rw [processTracked_ok_eq cfg pid a iid ct now d note _ fu L2 st2 hfc hscan] at hrun
      obtain ⟨extra, hnot, hcase⟩ := scan_notifs_char cfg a note d.notes
        { ({ st with reviewers := reviewerStep a note st.reviewers } : St) with
          ledger := L2 }
      rw [hscan] at hnot
      have hst' : st'.notifs = st2.notifs ++ authorNotif cfg a note
          (dictFind st.ledger note.id).isNone fu := by
        have := congrArg (fun p => (Prod.fst p).notifs) hrun
        simpa using this.symm
      refine ⟨extra, ?_, ?_⟩
      · rw [hst', hnot, hfu]
      · intro n hn
        rcases hcase with he | ⟨su, r1, r2, he, _⟩
        · rw [he] at hn
          cases hn
        · rw [he] at hn
          rcases List.mem_singleton.mp hn with rfl
          exact ⟨rfl, rfl⟩

theorem processNote_resp (cfg : Config) (pid : Nat) (a : String)
    (iid : Nat) (ct now : Int) (d : Discussion) (note : Note) (st : St)
    (k : String) :
    ∃ extra, ((processNote cfg pid a iid ct now d note st).1).notifs =
        st.notifs ++ extra ∧
      respCount extra k ≤ 1 ∧
      (k ≠ note.id → respCount extra k = 0) ∧
      (∀ n ∈ extra, n.note_id = note.id) ∧
      (respCount extra k = 1 →
        (∀ r0, dictFind st.ledger k = some r0 → r0.responded = false) ∧
        (∃ r', dictFind ((processNote cfg pid a iid ct now d note st).1).ledger k =
          some r' ∧ r'.responded = true)) := by
  by_cases hsys : note.system = true
  · rw [processNote_system_eq cfg pid a iid ct now d note st hsys]
    exact ⟨[], by simp, by simp [respCount], fun _ => rfl, by simp, by simp [respCount]⟩
  · have hsys' : note.system = false := by simpa using hsys
    by_cases htrk : should_track_user cfg note.author = true
    · rw [processNote_tracked_eq cfg pid a iid ct now d note st hsys' htrk]
      have hL1 : dictFind (noteLedger1 pid iid ct note
          ({ st with reviewers := reviewerStep a note st.reviewers } : St).ledger)
          note.id = some ((dictFind st.ledger note.id).getD (freshRecord pid iid note ct)) :=
        noteLedger1_find_self pid iid ct note _
      rcases hfc : followupCheck now (noteLedger1 pid iid ct note
          ({ st with reviewers := reviewerStep a note st.reviewers } : St).ledger) note.id
        with ⟨⟨fu, L2⟩, raised⟩
      obtain ⟨r2, hr2, hev2⟩ := fc_evol now _ note.id _ hL1
      rw [hfc] at hr2
      cases raised with
      | true =>
        rw [processTracked_raiseF_eq cfg pid a iid ct now d note _ fu L2 hfc]
        exact ⟨[], by simp, by simp [respCount], fun _ => rfl, by simp,
          by simp [respCount]⟩
      | false =>
        rcases hscan : scanResponses cfg a note d.notes
          { ({ st with reviewers := reviewerStep a note st.reviewers } : St) with
            ledger := L2 } with ⟨st2, raisedS⟩
        obtain ⟨extra, hnot, hcase⟩ := scan_notifs_char cfg a note d.notes
          { ({ st with reviewers := reviewerStep a note st.reviewers } : St) with
            ledger := L2 }
        rw [hscan] at hnot
        have hextraP : respCount extra k ≤ 1 ∧
            (k ≠ note.id → respCount extra k = 0) ∧
            (∀ n ∈ extra, n.note_id = note.id) ∧
            (respCount extra k = 1 →
              (∀ r0, dictFind st.ledger k = some r0 → r0.responded = false) ∧
              (∃ r', dictFind st2.ledger k = some r' ∧ r'.responded = true)) := by
          rcases hcase with he |
            ⟨su, ra2, rb2, he, hm2, ht2, hl2, hane2, hfind2, hresp2, hafter, hrespa, hrdr⟩
          · subst he
            exact ⟨by simp [respCount], fun _ => by simp [respCount], by simp,
              by simp [respCount]⟩
          · subst he
            have hfind2L : dictFind L2 note.id = some ra2 := hfind2
            have hr2L : dictFind L2 note.id = some r2 := hr2
            rw [hr2L] at hfind2L
            injection hfind2L with hra2
            by_cases hk : k = note.id
            · subst hk
              refine ⟨by simp [respCount], fun h => absurd rfl h, ?_, ?_⟩
              · intro n hn
                rcases List.mem_singleton.mp hn with rfl
                rfl
              · intro _
                constructor
                · intro r0 hr0
                  have hgetD : (dictFind st.ledger note.id).getD
                      (freshRecord pid iid note ct) = r0 := by rw [hr0]; rfl
                  rw [hgetD] at hev2
                  cases hb : r0.responded with
                  | false => rfl
                  | true =>
                    have hfz := hev2.frozen hb
                    rw [← hra2] at hresp2
                    rw [hfz] at hresp2
                    rw [hb] at hresp2
                    exact absurd hresp2 (by simp)
                · have hafterL : dictFind st2.ledger note.id = some rb2 := by
                    have := hafter
                    rw [hscan] at this
                    exact this
                  exact ⟨rb2, hafterL, hrespa⟩
            · have hkn : ¬(note.id = k) := fun h => hk h.symm
              exact ⟨by simp [respCount, hkn], fun _ => by simp [respCount, hkn],
                by simp, fun hcount => absurd hcount (by simp [respCount, hkn])⟩
        cases raisedS with
        | true =>
          rw [processTracked_raiseS_eq cfg pid a iid ct now d note _ fu L2 st2 hfc hscan]
          exact ⟨extra, hnot, hextraP.1, hextraP.2.1, hextraP.2.2.1, hextraP.2.2.2⟩
        | false =>
          rw [processTracked_ok_eq cfg pid a iid ct now d note _ fu L2 st2 hfc hscan]
          refine ⟨extra ++ authorNotif cfg a note
            (dictFind st.ledger note.id).isNone fu, ?_, ?_, ?_, ?_, ?_⟩
          · have hnot2 : st2.notifs = st.notifs ++ extra := hnot
            show st2.notifs ++ authorNotif cfg a note
              (dictFind st.ledger note.id).isNone fu = _
            rw [hnot2, List.append_assoc]
          · rw [respCount_append, respCount_authorNotif]
            simpa using hextraP.1
          · intro hk
            rw [respCount_append, respCount_authorNotif, hextraP.2.1 hk]
          · intro n hn
            rcases List.mem_append.mp hn with hn | hn
            · exact hextraP.2.2.1 n hn
            · rcases authorNotif_cases cfg a note
                (dictFind st.ledger note.id).isNone fu with he | ⟨su, he, _⟩
              · rw [he] at hn
                cases hn
              · rw [he] at hn
                rcases List.mem_singleton.mp hn with rfl
                rfl
          · intro hcount
            rw [respCount_append, respCount_authorNotif] at hcount
            simp at hcount
            exact hextraP.2.2.2 hcount
    · have htrk' : should_track_user cfg note.author = false := by simpa using htrk
      rw [processNote_filtered_eq cfg pid a iid ct now d note st hsys' htrk']
      exact ⟨[], by simp, by simp [respCount], fun _ => rfl, by simp,
        by simp [respCount]⟩

/-! Congruence lemmas: the engine's ledger, notifications and raised flag do
not depend on the reviewer set carried in the state, and the ledger and
raised flag do not depend on the Slack user map. -/

theorem processTracked_congr (cfg : Config) (pid : Nat) (a : String)
    (iid : Nat) (ct now : Int) (d : Discussion) (note : Note) (st1 st2 : St)
    (hL : st1.ledger = st2.ledger) (hN : st1.notifs = st2.notifs)
    (hrev : note.author ≠ a →
      listHas st1.reviewers note.author = listHas st2.reviewers note.author) :
    ((processTracked cfg pid a iid ct now d note st1).1.ledger =
      (processTracked cfg pid a iid ct now d note st2).1.ledger) ∧
    ((processTracked cfg pid a iid ct now d note st1).1.notifs =
      (processTracked cfg pid a iid ct now d note st2).1.notifs) ∧
    ((processTracked cfg pid a iid ct now d note st1).2 =
      (processTracked cfg pid a iid ct now d note st2).2) := by
  rcases hfc1 : followupCheck now (noteLedger1 pid iid ct note st1.ledger) note.id
    with ⟨⟨fu, L2⟩, raised⟩
  have hfc2 : followupCheck now (noteLedger1 pid iid ct note st2.ledger) note.id =
      ((fu, L2), raised) := by
    rw [← hL]
    exact hfc1
  cases raised with
  | true =>
    rw [processTracked_raiseF_eq cfg pid a iid ct now d note st1 fu L2 hfc1,
      processTracked_raiseF_eq cfg pid a iid ct now d note st2 fu L2 hfc2]
    exact ⟨rfl, hN, rfl⟩
  | false =>
    obtain ⟨gl, gr⟩ := scan_ledger_congr cfg cfg a a note d.notes
      { st1 with ledger := L2 } { st2 with ledger := L2 } rfl
    have gn := scan_notifs_congr cfg a note d.notes
      { st1 with ledger := L2 } { st2 with ledger := L2 } rfl hN hrev
    rcases hs1 : scanResponses cfg a note d.notes { st1 with ledger := L2 }
      with ⟨s1', b1⟩
    rcases hs2 : scanResponses cfg a note d.notes { st2 with ledger := L2 }
      with ⟨s2', b2⟩
    rw [hs1, hs2] at gl gr gn
    simp only at gl gr gn
    subst gr
    cases b1 with
    | true =>
      rw [processTracked_raiseS_eq cfg pid a iid ct now d note st1 fu L2 s1' hfc1 hs1,
        processTracked_raiseS_eq cfg pid a iid ct now d note st2 fu L2 s2' hfc2 hs2]
      exact ⟨gl, gn, rfl⟩
    | false =>
      rw [processTracked_ok_eq cfg pid a iid ct now d note st1 fu L2 s1' hfc1 hs1,
        processTracked_ok_eq cfg pid a iid ct now d note st2 fu L2 s2' hfc2 hs2]
      refine ⟨gl, ?_, rfl⟩
      show s1'.notifs ++ _ = s2'.notifs ++ _
      rw [gn, hL]

theorem processNote_rev_irrel (cfg : Config) (pid : Nat) (a : String)
    (iid : Nat) (ct now : Int) (d : Discussion) (note : Note) (st1 st2 : St)
    (hL : st1.ledger = st2.ledger) (hN : st1.notifs = st2.notifs) :
    ((processNote cfg pid a iid ct now d note st1).1.ledger =
      (processNote cfg pid a iid ct now d note st2).1.ledger) ∧
    ((processNote cfg pid a iid ct now d note st1).1.notifs =
      (processNote cfg pid a iid ct now d note st2).1.notifs) ∧
    ((processNote cfg pid a iid ct now d note st1).2 =
      (processNote cfg pid a iid ct now d note st2).2) := by
  by_cases hsys : note.system = true
  · rw [processNote_system_eq cfg pid a iid ct now d note st1 hsys,
      processNote_system_eq cfg pid a iid ct now d note st2 hsys]
    exact ⟨hL, hN, rfl⟩
  · have hsys' : note.system = false := by simpa using hsys
    by_cases htrk : should_track_user cfg note.author = true
    · rw [processNote_tracked_eq cfg pid a iid ct now d note st1 hsys' htrk,
        processNote_tracked_eq cfg pid a iid ct now d note st2 hsys' htrk]
      refine processTracked_congr cfg pid a iid ct now d note _ _ hL hN ?_
      intro hne
      show listHas (reviewerStep a note st1.reviewers) note.author =
        listHas (reviewerStep a note st2.reviewers) note.author
      unfold reviewerStep
      rw [if_pos hne, if_pos hne, listHas_setAdd_self, listHas_setAdd_self]
    · have htrk' : should_track_user cfg note.author = false := by simpa using htrk
      rw [processNote_filtered_eq cfg pid a iid ct now d note st1 hsys' htrk',
        processNote_filtered_eq cfg pid a iid ct now d note st2 hsys' htrk']
      exact ⟨hL, hN, rfl⟩

theorem processTracked_cfg_ledger (cfg1 cfg2 : Config) (pid : Nat) (a : String)
    (iid : Nat) (ct now : Int) (d : Discussion) (note : Note) (st1 : St) :
    ((processTracked cfg1 pid a iid ct now d note st1).1.ledger =
      (processTracked cfg2 pid a iid ct now d note st1).1.ledger) ∧
    ((processTracked cfg1 pid a iid ct now d note st1).2 =
      (processTracked cfg2 pid a iid ct now d note st1).2) := by
  rcases hfc1 : followupCheck now (noteLedger1 pid iid ct note st1.ledger) note.id
    with ⟨⟨fu, L2⟩, raised⟩
  cases raised with
  | true =>
    rw [processTracked_raiseF_eq cfg1 pid a iid ct now d note st1 fu L2 hfc1,
      processTracked_raiseF_eq cfg2 pid a iid ct now d note st1 fu L2 hfc1]
    exact ⟨rfl, rfl⟩
  | false =>
    obtain ⟨gl, gr⟩ := scan_ledger_congr cfg1 cfg2 a a note d.notes
      { st1 with ledger := L2 } { st1 with ledger := L2 } rfl
    rcases hs1 : scanResponses cfg1 a note d.notes { st1 with ledger := L2 }
      with ⟨s1', b1⟩
    rcases hs2 : scanResponses cfg2 a note d.notes { st1 with ledger := L2 }
      with ⟨s2', b2⟩
    rw [hs1, hs2] at gl gr
    simp only at gl gr
    subst gr
    cases b1 with
    | true =>
      rw [processTracked_raiseS_eq cfg1 pid a iid ct now d note st1 fu L2 s1' hfc1 hs1,
        processTracked_raiseS_eq cfg2 pid a iid ct now d note st1 fu L2 s2' hfc1 hs2]
      exact ⟨gl, rfl⟩
    | false =>
      rw [processTracked_ok_eq cfg1 pid a iid ct now d note st1 fu L2 s1' hfc1 hs1,
        processTracked_ok_eq cfg2 pid a iid ct now d note st1 fu L2 s2' hfc1 hs2]
      exact ⟨gl, rfl⟩

theorem processNote_cfg_ledger (cfg1 cfg2 : Config)
    (htu : cfg1.tracked_users = cfg2.tracked_users) (pid : Nat) (a : String)
    (iid : Nat) (ct now : Int) (d : Discussion) (note : Note) (st : St) :
    ((processNote cfg1 pid a iid ct now d note st).1.ledger =
      (processNote cfg2 pid a iid ct now d note st).1.ledger) ∧
    ((processNote cfg1 pid a iid ct now d note st).2 =
      (processNote cfg2 pid a iid ct now d note st).2) := by
  have htrkeq : should_track_user cfg1 note.author = should_track_user cfg2 note.author := by
    simp [should_track_user, htu]
  by_cases hsys : note.system = true
  · rw [processNote_system_eq cfg1 pid a iid ct now d note st hsys,
      processNote_system_eq cfg2 pid a iid ct now d note st hsys]
    exact ⟨rfl, rfl⟩
  · have hsys' : note.system = false := by simpa using hsys
    by_cases htrk : should_track_user cfg1 note.author = true
    · rw [processNote_tracked_eq cfg1 pid a iid ct now d note st hsys' htrk,
        processNote_tracked_eq cfg2 pid a iid ct now d note st hsys' (htrkeq ▸ htrk)]
      exact processTracked_cfg_ledger cfg1 cfg2 pid a iid ct now d note _
    · have htrk' : should_track_user cfg1 note.author = false := by simpa using htrk
      rw [processNote_filtered_eq cfg1 pid a iid ct now d note st hsys' htrk',
        processNote_filtered_eq cfg2 pid a iid ct now d note st hsys' (htrkeq ▸ htrk')]
      exact ⟨rfl, rfl⟩

/-! Branch equations for the loops. -/

theorem processNotes_cons_raise (cfg : Config) (pid : Nat) (a : String)
    (iid : Nat) (ct now : Int) (d : Discussion) (n : Note) (rest : List Note)
    (st st' : St)
    (hstep : processNote cfg pid a iid ct now d n st = (st', true)) :
    processNotes cfg pid a iid ct now d (n :: rest) st = (st', true) := by
  simp [processNotes, hstep]

theorem processNotes_cons_ok (cfg : Config) (pid : Nat) (a : String)
    (iid : Nat) (ct now : Int) (d : Discussion) (n : Note) (rest : List Note)
    (st st' : St)
    (hstep : processNote cfg pid a iid ct now d n st = (st', false)) :
    processNotes cfg pid a iid ct now d (n :: rest) st =
      processNotes cfg pid a iid ct now d rest st' := by
  simp [processNotes, hstep]

theorem processDiscussions_cons_raise (cfg : Config) (pid : Nat) (a : String)
    (iid : Nat) (ct now : Int) (d : Discussion) (rest : List Discussion)
    (st st' : St)
    (hstep : processNotes cfg pid a iid ct now d d.notes st = (st', true)) :
    processDiscussions cfg pid a iid ct now (d :: rest) st = (st', true) := by
  simp [processDiscussions, hstep]

theorem processDiscussions_cons_ok (cfg : Config) (pid : Nat) (a : String)
    (iid : Nat) (ct now : Int) (d : Discussion) (rest : List Discussion)
    (st st' : St)
    (hstep : processNotes cfg pid a iid ct now d d.notes st = (st', false)) :
    processDiscussions cfg pid a iid ct now (d :: rest) st =
      processDiscussions cfg pid a iid ct now rest st' := by
  simp [processDiscussions, hstep]

theorem processMRs_cons_raise (cfg : Config) (pid : Nat) (ct now : Int)
    (mr : MergeRequest) (rest : List MergeRequest) (lg lg' : Ledger)
    (ns ns' : List Notif) (sn : List (List String))
    (hstep : processMR cfg pid ct now mr lg ns = ((lg', ns', sn), true)) :
    processMRs cfg pid ct now (mr :: rest) (lg, ns) = ((lg', ns'), true) := by
  simp [processMRs, hstep]

theorem processMRs_cons_ok (cfg : Config) (pid : Nat) (ct now : Int)
    (mr : MergeRequest) (rest : List MergeRequest) (lg lg' : Ledger)
    (ns ns' : List Notif) (sn : List (List String))
    (hstep : processMR cfg pid ct now mr lg ns = ((lg', ns', sn), false)) :
    processMRs cfg pid ct now (mr :: rest) (lg, ns) =
      processMRs cfg pid ct now rest (lg', ns') := by
  simp [processMRs, hstep]

theorem processProjects_cons_raise (cfg : Config) (ct now : Int)
    (p : Project) (rest : List Project) (s s' : Ledger × List Notif)
    (hstep : processMRs cfg p.id ct now p.mrs s = (s', true)) :
    processProjects cfg ct now (p :: rest) s = (s', true) := by
  simp [processProjects, hstep]

theorem processProjects_cons_ok (cfg : Config) (ct now : Int)
    (p : Project) (rest : List Project) (s s' : Ledger × List Notif)
    (hstep : processMRs cfg p.id ct now p.mrs s = (s', false)) :
    processProjects cfg ct now (p :: rest) s =
      processProjects cfg ct now rest s' := by
  simp [processProjects, hstep]

theorem runCycles_cons_eq (cfg : Config) (c : CycleInput)
    (rest : List CycleInput) (lg lg' : Ledger) (ns : List Notif) (b : Bool)
    (hc : check_for_new_comments cfg c.current_time c.now c.projects lg =
      ((lg', ns), b)) :
    runCycles cfg (c :: rest) lg =
      ((runCycles cfg rest lg').1, ns ++ (runCycles cfg rest lg').2) := by
  rcases hrc : runCycles cfg rest lg' with ⟨lg2, ns2⟩
  simp [runCycles, hc, hrc]

/-! Record evolution through the loops. -/

theorem processNotes_evol (cfg : Config) (pid : Nat) (a : String) (iid : Nat)
    (ct now : Int) (d : Discussion) (ns : List Note) (st : St) (k : String)
    (r : Record) (h : dictFind st.ledger k = some r) :
    ∃ r', dictFind ((processNotes cfg pid a iid ct now d ns st).1).ledger k =
      some r' ∧ RecEvol r r' := by
  induction ns generalizing st r with
  | nil => exact ⟨r, h, RecEvol.refl r⟩
  | cons n rest ih =>
    rcases hstep : processNote cfg pid a iid ct now d n st with ⟨st', b⟩
    obtain ⟨r1, hr1, he1⟩ := processNote_evol cfg pid a iid ct now d n st k r h
    rw [hstep] at hr1
    cases b with
    | true =>
      rw [processNotes_cons_raise cfg pid a iid ct now d n rest st st' hstep]
      exact ⟨r1, hr1, he1⟩
    | false =>
      rw [processNotes_cons_ok cfg pid a iid ct now d n rest st st' hstep]
      obtain ⟨r2, hr2, he2⟩ := ih st' r1 hr1
      exact ⟨r2, hr2, he1.trans he2⟩

theorem processDiscussions_evol (cfg : Config) (pid : Nat) (a : String)
    (iid : Nat) (ct now : Int) (ds : List Discussion) (st : St) (k : String)
    (r : Record) (h : dictFind st.ledger k = some r) :
    ∃ r', dictFind ((processDiscussions cfg pid a iid ct now ds st).1).ledger k =
      some r' ∧ RecEvol r r' := by
  induction ds generalizing st r with
  | nil => exact ⟨r, h, RecEvol.refl r⟩
  | cons d rest ih =>
    rcases hstep : processNotes cfg pid a iid ct now d d.notes st with ⟨st', b⟩
    obtain ⟨r1, hr1, he1⟩ := processNotes_evol cfg pid a iid ct now d d.notes st k r h
    rw [hstep] at hr1
    cases b with
    | true =>
      rw [processDiscussions_cons_raise cfg pid a iid ct now d rest st st' hstep]
      exact ⟨r1, hr1, he1⟩
    | false =>
      rw [processDiscussions_cons_ok cfg pid a iid ct now d rest st st' hstep]
      obtain ⟨r2, hr2, he2⟩ := ih st' r1 hr1
      exact ⟨r2, hr2, he1.trans he2⟩

theorem processMR_evol (cfg : Config) (pid : Nat) (ct now : Int)
    (mr : MergeRequest) (lg : Ledger) (ns : List Notif) (k : String)
    (r : Record) (h : dictFind lg k = some r) :
    ∃ r', dictFind (processMR cfg pid ct now mr lg ns).1.1 k = some r' ∧
      RecEvol r r' := by
  unfold processMR
  rcases hpd : processDiscussions cfg pid mr.author mr.iid ct now mr.discussions
    { reviewers := initReviewers mr.reviewers, ledger := lg, notifs := ns,
      snaps := [] } with ⟨stx, b⟩
  obtain ⟨r', hr', he⟩ := processDiscussions_evol cfg pid mr.author mr.iid ct now
    mr.discussions
    { reviewers := initReviewers mr.reviewers, ledger := lg, notifs := ns,
      snaps := [] } k r h
  rw [hpd] at hr'
  exact ⟨r', hr', he⟩

theorem processMRs_evol (cfg : Config) (pid : Nat) (ct now : Int)
    (mrs : List MergeRequest) (s : Ledger × List Notif) (k : String)
    (r : Record) (h : dictFind s.1 k = some r) :
    ∃ r', dictFind (processMRs cfg pid ct now mrs s).1.1 k = some r' ∧
      RecEvol r r' := by
  induction mrs generalizing s r with
  | nil => exact ⟨r, h, RecEvol.refl r⟩
  | cons mr rest ih =>
    rcases s with ⟨lg, ns⟩
    rcases hstep : processMR cfg pid ct now mr lg ns with ⟨⟨lg', ns', sn⟩, b⟩
    obtain ⟨r1, hr1, he1⟩ := processMR_evol cfg pid ct now mr lg ns k r h
    rw [hstep] at hr1
    cases b with
    | true =>
      rw [processMRs_cons_raise cfg pid ct now mr rest lg lg' ns ns' sn hstep]
      exact ⟨r1, hr1, he1⟩
    | false =>
      rw [processMRs_cons_ok cfg pid ct now mr rest lg lg' ns ns' sn hstep]
      obtain ⟨r2, hr2, he2⟩ := ih (lg', ns') r1 hr1
      exact ⟨r2, hr2, he1.trans he2⟩

theorem processProjects_evol (cfg : Config) (ct now : Int) (ps : List Project)
    (s : Ledger × List Notif) (k : String) (r : Record)
    (h : dictFind s.1 k = some r) :
    ∃ r', dictFind (processProjects cfg ct now ps s).1.1 k = some r' ∧
      RecEvol r r' := by
  induction ps generalizing s r with
  | nil => exact ⟨r, h, RecEvol.refl r⟩
  | cons p rest ih =>
    rcases hstep : processMRs cfg p.id ct now p.mrs s with ⟨s', b⟩
    obtain ⟨r1, hr1, he1⟩ := processMRs_evol cfg p.id ct now p.mrs s k r h
    rw [hstep] at hr1
    cases b with
    | true =>
      rw [processProjects_cons_raise cfg ct now p rest s s' hstep]
      exact ⟨r1, hr1, he1⟩
    | false =>
      rw [processProjects_cons_ok cfg ct now p rest s s' hstep]
      obtain ⟨r2, hr2, he2⟩ := ih s' r1 hr1
      exact ⟨r2, hr2, he1.trans he2⟩

theorem cycle_evol (cfg : Config) (ct now : Int) (ps : List Project)
    (lg : Ledger) (k : String) (r : Record) (h : dictFind lg k = some r) :
    ∃ r', dictFind (check_for_new_comments cfg ct now ps lg).1.1 k = some r' ∧
      RecEvol r r' :=
  processProjects_evol cfg ct now ps (lg, []) k r h

theorem runCycles_evol (cfg : Config) (cycles : List CycleInput) (lg : Ledger)
    (k : String) (r : Record) (h : dictFind lg k = some r) :
    ∃ r', dictFind (runCycles cfg cycles lg).1 k = some r' ∧ RecEvol r r' := by
  induction cycles generalizing lg r with
  | nil => exact ⟨r, h, RecEvol.refl r⟩
  | cons c rest ih =>
    rcases hc : check_for_new_comments cfg c.current_time c.now c.projects lg
      with ⟨⟨lg', ns⟩, b⟩
    obtain ⟨r1, hr1, he1⟩ := cycle_evol cfg c.current_time c.now c.projects lg k r h
    rw [hc] at hr1
    rw [runCycles_cons_eq cfg c rest lg lg' ns b hc]
    obtain ⟨r2, hr2, he2⟩ := ih lg' r1 hr1
    exact ⟨r2, hr2, he1.trans he2⟩

/-! Ledger-key bookkeeping: a key is present after processing exactly when it
was present before or a non-system, tracked note carrying it was processed. -/

theorem decide_str_comm (a b : String) : decide (a = b) = decide (b = a) := by
  by_cases h : a = b
  · simp [h]
  · have h2 : ¬b = a := fun hh => h hh.symm
    simp [h, h2]

theorem processNotes_keys (cfg : Config) (pid : Nat) (a : String) (iid : Nat)
    (ct now : Int) (d : Discussion) (ns : List Note) (st : St) (k : String)
    (hok : (processNotes cfg pid a iid ct now d ns st).2 = false) :
    (dictFind ((processNotes cfg pid a iid ct now d ns st).1).ledger k).isSome =
      ((dictFind st.ledger k).isSome ||
        ns.any (fun n => decide (n.id = k) && !n.system &&
          should_track_user cfg n.author)) := by
  induction ns generalizing st with
  | nil => simp [processNotes]
  | cons n rest ih =>
    rcases hstep : processNote cfg pid a iid ct now d n st with ⟨st', b⟩
    cases b with
    | true =>
      rw [processNotes_cons_raise cfg pid a iid ct now d n rest st st' hstep] at hok
      simp at hok
    | false =>
      rw [processNotes_cons_ok cfg pid a iid ct now d n rest st st' hstep] at hok ⊢
      rw [ih st' hok]
      have hk : (dictFind st'.ledger k).isSome =
          ((dictFind st.ledger k).isSome ||
            (decide (k = n.id) && !n.system && should_track_user cfg n.author)) := by
        have := processNote_keys cfg pid a iid ct now d n st k
        rw [hstep] at this
        exact this
      rw [hk,
        show decide (k = n.id) = decide (n.id = k) from decide_str_comm k n.id]
      simp [Bool.or_assoc]

theorem processDiscussions_keys (cfg : Config) (pid : Nat) (a : String)
    (iid : Nat) (ct now : Int) (ds : List Discussion) (st : St) (k : String)
    (hok : (processDiscussions cfg pid a iid ct now ds st).2 = false) :
    (dictFind ((processDiscussions cfg pid a iid ct now ds st).1).ledger k).isSome =
      ((dictFind st.ledger k).isSome ||
        ds.any (fun d => d.notes.any (fun n => decide (n.id = k) && !n.system &&
          should_track_user cfg n.author))) := by
  induction ds generalizing st with
  | nil => simp [processDiscussions]
  | cons d rest ih =>
    rcases hstep : processNotes cfg pid a iid ct now d d.notes st with ⟨st', b⟩
    cases b with
    | true =>
      rw [processDiscussions_cons_raise cfg pid a iid ct now d rest st st' hstep] at hok
      simp at hok
    | false =>
      rw [processDiscussions_cons_ok cfg pid a iid ct now d rest st st' hstep] at hok ⊢
      rw [ih st' hok]
      have hk : (dictFind st'.ledger k).isSome =
          ((dictFind st.ledger k).isSome ||
            d.notes.any (fun n => decide (n.id = k) && !n.system &&
              should_track_user cfg n.author)) := by
        have := processNotes_keys cfg pid a iid ct now d d.notes st k
          (by rw [hstep])
        rw [hstep] at this
        exact this
      rw [hk]
      simp [Bool.or_assoc]

theorem processMR_keys (cfg : Config) (pid : Nat) (ct now : Int)
    (mr : MergeRequest) (lg : Ledger) (ns : List Notif) (k : String)
    (hok : (processMR cfg pid ct now mr lg ns).2 = false) :
    (dictFind (processMR cfg pid ct now mr lg ns).1.1 k).isSome =
      ((dictFind lg k).isSome ||
        mr.discussions.any (fun d => d.notes.any
          (fun n => decide (n.id = k) && !n.system &&
            should_track_user cfg n.author))) := by
  unfold processMR at hok ⊢
  rcases hpd : processDiscussions cfg pid mr.author mr.iid ct now mr.discussions
    { reviewers := initReviewers mr.reviewers, ledger := lg, notifs := ns,
      snaps := [] } with ⟨stx, b⟩
  rw [hpd] at hok
  have hb : b = false := hok
  subst hb
  have := processDiscussions_keys cfg pid mr.author mr.iid ct now mr.discussions
    { reviewers := initReviewers mr.reviewers, ledger := lg, notifs := ns,
      snaps := [] } k (by rw [hpd])
  rw [hpd] at this
  exact this

theorem processMRs_keys (cfg : Config) (pid : Nat) (ct now : Int)
    (mrs : List MergeRequest) (s : Ledger × List Notif) (k : String)
    (hok : (processMRs cfg pid ct now mrs s).2 = false) :
    (dictFind (processMRs cfg pid ct now mrs s).1.1 k).isSome =
      ((dictFind s.1 k).isSome ||
        mrs.any (fun mr => mr.discussions.any (fun d => d.notes.any
          (fun n => decide (n.id = k) && !n.system &&
            should_track_user cfg n.author)))) := by
  induction mrs generalizing s with
  | nil => simp [processMRs]
  | cons mr rest ih =>
    rcases s with ⟨lg, nsx⟩
    rcases hstep : processMR cfg pid ct now mr lg nsx with ⟨⟨lg', ns', sn⟩, b⟩
    cases b with
    | true =>
      rw [processMRs_cons_raise cfg pid ct now mr rest lg lg' nsx ns' sn hstep] at hok
      simp at hok
    | false =>
      rw [processMRs_cons_ok cfg pid ct now mr rest lg lg' nsx ns' sn hstep] at hok ⊢
      rw [ih (lg', ns') hok]
      have hk : (dictFind lg' k).isSome =
          ((dictFind lg k).isSome ||
            mr.discussions.any (fun d => d.notes.any
              (fun n => decide (n.id = k) && !n.system &&
                should_track_user cfg n.author))) := by
        have := processMR_keys cfg pid ct now mr lg nsx k (by rw [hstep])
        rw [hstep] at this
        exact this
      rw [show dictFind ((lg', ns') : Ledger × List Notif).1 k = dictFind lg' k
        from rfl, hk]
      simp [Bool.or_assoc]

theorem processProjects_keys (cfg : Config) (ct now : Int) (ps : List Project)
    (s : Ledger × List Notif) (k : String)
    (hok : (processProjects cfg ct now ps s).2 = false) :
    (dictFind (processProjects cfg ct now ps s).1.1 k).isSome =
      ((dictFind s.1 k).isSome || processedMention cfg ps k) := by
  induction ps generalizing s with
  | nil => simp [processProjects, processedMention]
  | cons p rest ih =>
    rcases hstep : processMRs cfg p.id ct now p.mrs s with ⟨s', b⟩
    cases b with
    | true =>
      rw [processProjects_cons_raise cfg ct now p rest s s' hstep] at hok
      simp at hok
    | false =>
      rw [processProjects_cons_ok cfg ct now p rest s s' hstep] at hok ⊢
      rw [ih s' hok]
      have hk : (dictFind s'.1 k).isSome =
          ((dictFind s.1 k).isSome ||
            p.mrs.any (fun mr => mr.discussions.any (fun d => d.notes.any
              (fun n => decide (n.id = k) && !n.system &&
                should_track_user cfg n.author)))) := by
        have := processMRs_keys cfg p.id ct now p.mrs s k (by rw [hstep])
        rw [hstep] at this
        exact this
      rw [hk]
      simp [processedMention, Bool.or_assoc]

/-! A note id that never occurs in a cycle's fetched data is untouched: its
record (if any) is preserved verbatim and no notification concerns it. -/

/-- Counts the notifications (of any kind) concerning a given note id. -/
def notifCount (l : List Notif) (k : String) : Nat :=
  l.countP (fun n => decide (n.note_id = k))

theorem notifCount_append (l1 l2 : List Notif) (k : String) :
    notifCount (l1 ++ l2) k = notifCount l1 k + notifCount l2 k :=
  List.countP_append _ _ _

theorem notifCount_zero_of (l : List Notif) (k : String)
    (h : ∀ n ∈ l, n.note_id ≠ k) : notifCount l k = 0 := by
  induction l with
  | nil => rfl
  | cons n rest ih =>
    have h1 : (decide (n.note_id = k)) = false := by
      simp [h n (List.mem_cons_self n rest)]
    simp only [notifCount, List.countP_cons, h1]
    simpa [notifCount] using ih (fun m hm => h m (List.mem_cons_of_mem n hm))

theorem processNote_untouched (cfg : Config) (pid : Nat) (a : String)
    (iid : Nat) (ct now : Int) (d : Discussion) (note : Note) (st : St)
    (k : String) (hm : note.id ≠ k) :
    dictFind ((processNote cfg pid a iid ct now d note st).1).ledger k =
      dictFind st.ledger k ∧
    notifCount ((processNote cfg pid a iid ct now d note st).1).notifs k =
      notifCount st.notifs k := by
  refine ⟨processNote_find_ne cfg pid a iid ct now d note st k (fun h => hm h.symm), ?_⟩
  obtain ⟨extra, hnot, _, _, hids, _⟩ := processNote_resp cfg pid a iid ct now d note st k
  rw [hnot, notifCount_append,
    notifCount_zero_of extra k (fun n hn => by rw [hids n hn]; exact hm)]
  rfl

theorem processNotes_untouched (cfg : Config) (pid : Nat) (a : String)
    (iid : Nat) (ct now : Int) (d : Discussion) (ns : List Note) (st : St)
    (k : String) (hm : ∀ n ∈ ns, n.id ≠ k) :
    dictFind ((processNotes cfg pid a iid ct now d ns st).1).ledger k =
      dictFind st.ledger k ∧
    notifCount ((processNotes cfg pid a iid ct now d ns st).1).notifs k =
      notifCount st.notifs k := by
  induction ns generalizing st with
  | nil => exact ⟨rfl, rfl⟩
  | cons n rest ih =>
    rcases hstep : processNote cfg pid a iid ct now d n st with ⟨st', b⟩
    have hn := processNote_untouched cfg pid a iid ct now d n st k
      (hm n (List.mem_cons_self n rest))
    rw [hstep] at hn
    cases b with
    | true =>
      rw [processNotes_cons_raise cfg pid a iid ct now d n rest st st' hstep]
      exact hn
    | false =>
      rw [processNotes_cons_ok cfg pid a iid ct now d n rest st st' hstep]
      obtain ⟨ih1, ih2⟩ := ih st' (fun m hmm => hm m (List.mem_cons_of_mem n hmm))
      exact ⟨ih1.trans hn.1, ih2.trans hn.2⟩

theorem processDiscussions_untouched (cfg : Config) (pid : Nat) (a : String)
    (iid : Nat) (ct now : Int) (ds : List Discussion) (st : St) (k : String)
    (hm : ∀ d ∈ ds, ∀ n ∈ d.notes, n.id ≠ k) :
    dictFind ((processDiscussions cfg pid a iid ct now ds st).1).ledger k =
      dictFind st.ledger k ∧
    notifCount ((processDiscussions cfg pid a iid ct now ds st).1).notifs k =
      notifCount st.notifs k := by
  induction ds generalizing st with
  | nil => exact ⟨rfl, rfl⟩
  | cons d rest ih =>
    rcases hstep : processNotes cfg pid a iid ct now d d.notes st with ⟨st', b⟩
    have hn := processNotes_untouched cfg pid a iid ct now d d.notes st k
      (hm d (List.mem_cons_self d rest))
    rw [hstep] at hn
    cases b with
    | true =>
      rw [processDiscussions_cons_raise cfg pid a iid ct now d rest st st' hstep]
      exact hn
    | false =>
      rw [processDiscussions_cons_ok cfg pid a iid ct now d rest st st' hstep]
      obtain ⟨ih1, ih2⟩ := ih st' (fun d2 hd2 => hm d2 (List.mem_cons_of_mem d hd2))
      exact ⟨ih1.trans hn.1, ih2.trans hn.2⟩

theorem processMR_untouched (cfg : Config) (pid : Nat) (ct now : Int)
    (mr : MergeRequest) (lg : Ledger) (ns : List Notif) (k : String)
    (hm : ∀ d ∈ mr.discussions, ∀ n ∈ d.notes, n.id ≠ k) :
    dictFind (processMR cfg pid ct now mr lg ns).1.1 k = dictFind lg k ∧
    notifCount (processMR cfg pid ct now mr lg ns).1.2.1 k = notifCount ns k := by
  unfold processMR
  rcases hpd : processDiscussions cfg pid mr.author mr.iid ct now mr.discussions
    { reviewers := initReviewers mr.reviewers, ledger := lg, notifs := ns,
      snaps := [] } with ⟨stx, b⟩
  have := processDiscussions_untouched cfg pid mr.author mr.iid ct now
    mr.discussions
    { reviewers := initReviewers mr.reviewers, ledger := lg, notifs := ns,
      snaps := [] } k hm
  rw [hpd] at this
  exact this

theorem processMRs_untouched (cfg : Config) (pid : Nat) (ct now : Int)
    (mrs : List MergeRequest) (s : Ledger × List Notif) (k : String)
    (hm : ∀ mr ∈ mrs, ∀ d ∈ mr.discussions, ∀ n ∈ d.notes, n.id ≠ k) :
    dictFind (processMRs cfg pid ct now mrs s).1.1 k = dictFind s.1 k ∧
    notifCount (processMRs cfg pid ct now mrs s).1.2 k = notifCount s.2 k := by
  induction mrs generalizing s with
  | nil => exact ⟨rfl, rfl⟩
  | cons mr rest ih =>
    rcases s with ⟨lg, nsx⟩
    rcases hstep : processMR cfg pid ct now mr lg nsx with ⟨⟨lg', ns', sn⟩, b⟩
    have hn := processMR_untouched cfg pid ct now mr lg nsx k
      (hm mr (List.mem_cons_self mr rest))
    rw [hstep] at hn
    cases b with
    | true =>
      rw [processMRs_cons_raise cfg pid ct now mr rest lg lg' nsx ns' sn hstep]
      exact hn
    | false =>
      rw [processMRs_cons_ok cfg pid ct now mr rest lg lg' nsx ns' sn hstep]
      obtain ⟨ih1, ih2⟩ := ih (lg', ns') (fun m hmm => hm m (List.mem_cons_of_mem mr hmm))
      exact ⟨ih1.trans hn.1, ih2.trans hn.2⟩

theorem processProjects_untouched (cfg : Config) (ct now : Int)
    (ps : List Project) (s : Ledger × List Notif) (k : String)
    (hm : ∀ p ∈ ps, ∀ mr ∈ p.mrs, ∀ d ∈ mr.discussions, ∀ n ∈ d.notes, n.id ≠ k) :
    dictFind (processProjects cfg ct now ps s).1.1 k = dictFind s.1 k ∧
    notifCount (processProjects cfg ct now ps s).1.2 k = notifCount s.2 k := by
  induction ps generalizing s with
  | nil => exact ⟨rfl, rfl⟩
  | cons p rest ih =>
    rcases hstep : processMRs cfg p.id ct now p.mrs s with ⟨s', b⟩
    have hn := processMRs_untouched cfg p.id ct now p.mrs s k
      (hm p (List.mem_cons_self p rest))
    rw [hstep] at hn
    cases b with
    | true =>
      rw [processProjects_cons_raise cfg ct now p rest s s' hstep]
      exact hn
    | false =>
      rw [processProjects_cons_ok cfg ct now p rest s s' hstep]
      obtain ⟨ih1, ih2⟩ := ih s' (fun p2 hp2 => hm p2 (List.mem_cons_of_mem p hp2))
      exact ⟨ih1.trans hn.1, ih2.trans hn.2⟩

theorem projectsMention_false (ps : List Project) (k : String)
    (h : projectsMention ps k = false) :
    ∀ p ∈ ps, ∀ mr ∈ p.mrs, ∀ d ∈ mr.discussions, ∀ n ∈ d.notes, n.id ≠ k := by
  intro p hp mr hmr d hd n hn heq
  rw [Bool.eq_false_iff] at h
  apply h
  simp only [projectsMention, List.any_eq_true]
  exact ⟨p, hp, mr, hmr, d, hd, n, hn, by simp [heq]⟩

theorem cycle_untouched (cfg : Config) (ct now : Int) (ps : List Project)
    (lg : Ledger) (k : String) (h : projectsMention ps k = false) :
    dictFind (check_for_new_comments cfg ct now ps lg).1.1 k = dictFind lg k ∧
    notifCount (check_for_new_comments cfg ct now ps lg).1.2 k = 0 := by
  have := processProjects_untouched cfg ct now ps (lg, []) k
    (projectsMention_false ps k h)
  refine ⟨this.1, ?_⟩
  show notifCount (processProjects cfg ct now ps (lg, [])).1.2 k = 0
  rw [this.2]
  rfl

theorem runCycles_untouched (cfg : Config) (cycles : List CycleInput)
    (lg : Ledger) (k : String)
    (h : ∀ c ∈ cycles, projectsMention c.projects k = false) :
    dictFind (runCycles cfg cycles lg).1 k = dictFind lg k ∧
    notifCount (runCycles cfg cycles lg).2 k = 0 := by
  induction cycles generalizing lg with
  | nil => exact ⟨rfl, rfl⟩
  | cons c rest ih =>
    rcases hc : check_for_new_comments cfg c.current_time c.now c.projects lg
      with ⟨⟨lg', ns⟩, b⟩
    have hcy := cycle_untouched cfg c.current_time c.now c.projects lg k
      (h c (List.mem_cons_self c rest))
    rw [hc] at hcy
    rw [runCycles_cons_eq cfg c rest lg lg' ns b hc]
    obtain ⟨ih1, ih2⟩ := ih lg' (fun c2 hc2 => h c2 (List.mem_cons_of_mem c hc2))
    refine ⟨ih1.trans hcy.1, ?_⟩
    rw [notifCount_append]
    simp only at hcy
    rw [hcy.2, ih2]

/-! A responded record is frozen and emits no further response
notifications; a response notification is dispatched at most once per
record over the whole run. -/

theorem processNote_resp_frozen (cfg : Config) (pid : Nat) (a : String)
    (iid : Nat) (ct now : Int) (d : Discussion) (note : Note) (st : St)
    (k : String) (r : Record) (h : dictFind st.ledger k = some r)
    (hr : r.responded = true) :
    dictFind ((processNote cfg pid a iid ct now d note st).1).ledger k = some r ∧
    respCount ((processNote cfg pid a iid ct now d note st).1).notifs k =
      respCount st.notifs k := by
  obtain ⟨r', hr', he⟩ := processNote_evol cfg pid a iid ct now d note st k r h
  have hfz : r' = r := he.frozen hr
  rw [hfz] at hr'
  refine ⟨hr', ?_⟩
  obtain ⟨extra, hnot, hle, _, _, hone⟩ := processNote_resp cfg pid a iid ct now d note st k
  have hz : respCount extra k = 0 := by
    rcases Nat.le_one_iff_eq_zero_or_eq_one.mp hle with h0 | h1
    · exact h0
    · have := (hone h1).1 r h
      rw [this] at hr
      exact absurd hr (by simp)
  rw [hnot, respCount_append, hz]
  rfl

theorem processNotes_resp_frozen (cfg : Config) (pid : Nat) (a : String)
    (iid : Nat) (ct now : Int) (d : Discussion) (ns : List Note) (st : St)
    (k : String) (r : Record) (h : dictFind st.ledger k = some r)
    (hr : r.responded = true) :
    dictFind ((processNotes cfg pid a iid ct now d ns st).1).ledger k = some r ∧
    respCount ((processNotes cfg pid a iid ct now d ns st).1).notifs k =
      respCount st.notifs k := by
  induction ns generalizing st with
  | nil => exact ⟨h, rfl⟩
  | cons n rest ih =>
    rcases hstep : processNote cfg pid a iid ct now d n st with ⟨st', b⟩
    have hn := processNote_resp_frozen cfg pid a iid ct now d n st k r h hr
    rw [hstep] at hn
    cases b with
    | true =>
      rw [processNotes_cons_raise cfg pid a iid ct now d n rest st st' hstep]
      exact hn
    | false =>
      rw [processNotes_cons_ok cfg pid a iid ct now d n rest st st' hstep]
      obtain ⟨ih1, ih2⟩ := ih st' hn.1
      exact ⟨ih1, ih2.trans hn.2⟩

theorem processDiscussions_resp_frozen (cfg : Config) (pid : Nat) (a : String)
    (iid : Nat) (ct now : Int) (ds : List Discussion) (st : St)
    (k : String) (r : Record) (h : dictFind st.ledger k = some r)
    (hr : r.responded = true) :
    dictFind ((processDiscussions cfg pid a iid ct now ds st).1).ledger k = some r ∧
    respCount ((processDiscussions cfg pid a iid ct now ds st).1).notifs k =
      respCount st.notifs k := by
  induction ds generalizing st with
  | nil => exact ⟨h, rfl⟩
  | cons d rest ih =>
    rcases hstep : processNotes cfg pid a iid ct now d d.notes st with ⟨st', b⟩
    have hn := processNotes_resp_frozen cfg pid a iid ct now d d.notes st k r h hr
    rw [hstep] at hn
    cases b with
    | true =>
      rw [processDiscussions_cons_raise cfg pid a iid ct now d rest st st' hstep]
      exact hn
    | false =>
      rw [processDiscussions_cons_ok cfg pid a iid ct now d rest st st' hstep]
      obtain ⟨ih1, ih2⟩ := ih st' hn.1
      exact ⟨ih1, ih2.trans hn.2⟩

theorem processMR_resp_frozen (cfg : Config) (pid : Nat) (ct now : Int)
    (mr : MergeRequest) (lg : Ledger) (ns : List Notif) (k : String)
    (r : Record) (h : dictFind lg k = some r) (hr : r.responded = true) :
    dictFind (processMR cfg pid ct now mr lg ns).1.1 k = some r ∧
    respCount (processMR cfg pid ct now mr lg ns).1.2.1 k = respCount ns k := by
  unfold processMR
  rcases hpd : processDiscussions cfg pid mr.author mr.iid ct now mr.discussions
    { reviewers := initReviewers mr.reviewers, ledger := lg, notifs := ns,
      snaps := [] } with ⟨stx, b⟩
  have := processDiscussions_resp_frozen cfg pid mr.author mr.iid ct now
    mr.discussions
    { reviewers := initReviewers mr.reviewers, ledger := lg, notifs := ns,
      snaps := [] } k r h hr
  rw [hpd] at this
  exact this

theorem processMRs_resp_frozen (cfg : Config) (pid : Nat) (ct now : Int)
    (mrs : List MergeRequest) (s : Ledger × List Notif) (k : String)
    (r : Record) (h : dictFind s.1 k = some r) (hr : r.responded = true) :
    dictFind (processMRs cfg pid ct now mrs s).1.1 k = some r ∧
    respCount (processMRs cfg pid ct now mrs s).1.2 k = respCount s.2 k := by
  induction mrs generalizing s with
  | nil => exact ⟨h, rfl⟩
  | cons mr rest ih =>
    rcases s with ⟨lg, nsx⟩
    rcases hstep : processMR cfg pid ct now mr lg nsx with ⟨⟨lg', ns', sn⟩, b⟩
    have hn := processMR_resp_frozen cfg pid ct now mr lg nsx k r h hr
    rw [hstep] at hn
    cases b with
    | true =>
      rw [processMRs_cons_raise cfg pid ct now mr rest lg lg' nsx ns' sn hstep]
      exact hn
    | false =>
      rw [processMRs_cons_ok cfg pid ct now mr rest lg lg' nsx ns' sn hstep]
      obtain ⟨ih1, ih2⟩ := ih (lg', ns') hn.1
      exact ⟨ih1, ih2.trans hn.2⟩

theorem processProjects_resp_frozen (cfg : Config) (ct now : Int)
    (ps : List Project) (s : Ledger × List Notif) (k : String)
    (r : Record) (h : dictFind s.1 k = some r) (hr : r.responded = true) :
    dictFind (processProjects cfg ct now ps s).1.1 k = some r ∧
    respCount (processProjects cfg ct now ps s).1.2 k = respCount s.2 k := by
  induction ps generalizing s with
  | nil => exact ⟨h, rfl⟩
  | cons p rest ih =>
    rcases hstep : processMRs cfg p.id ct now p.mrs s with ⟨s', b⟩
    have hn := processMRs_resp_frozen cfg p.id ct now p.mrs s k r h hr
    rw [hstep] at hn
    cases b with
    | true =>
      rw [processProjects_cons_raise cfg ct now p rest s s' hstep]
      exact hn
    | false =>
      rw [processProjects_cons_ok cfg ct now p rest s s' hstep]
      obtain ⟨ih1, ih2⟩ := ih s' hn.1
      exact ⟨ih1, ih2.trans hn.2⟩

theorem cycle_resp_frozen (cfg : Config) (ct now : Int) (ps : List Project)
    (lg : Ledger) (k : String) (r : Record) (h : dictFind lg k = some r)
    (hr : r.responded = true) :
    dictFind (check_for_new_comments cfg ct now ps lg).1.1 k = some r ∧
    respCount (check_for_new_comments cfg ct now ps lg).1.2 k = 0 := by
  have := processProjects_resp_frozen cfg ct now ps (lg, []) k r h hr
  refine ⟨this.1, ?_⟩
  show respCount (processProjects cfg ct now ps (lg, [])).1.2 k = 0
  rw [this.2]
  rfl

/-- The at-most-once invariant carried through a run: the notification list
holds at most one response notification for `k`, and as soon as it holds one
the record is marked responded. -/
def RespOk (lg : Ledger) (ns : List Notif) (k : String) : Prop :=
  respCount ns k ≤ 1 ∧
    (1 ≤ respCount ns k → ∃ r, dictFind lg k = some r ∧ r.responded = true)

theorem processNote_respOk (cfg : Config) (pid : Nat) (a : String)
    (iid : Nat) (ct now : Int) (d : Discussion) (note : Note) (st : St)
    (k : String) (h : RespOk st.ledger st.notifs k) :
    RespOk ((processNote cfg pid a iid ct now d note st).1).ledger
      ((processNote cfg pid a iid ct now d note st).1).notifs k := by
  obtain ⟨extra, hnot, hle, _, _, hone⟩ := processNote_resp cfg pid a iid ct now d note st k
  rcases Nat.le_one_iff_eq_zero_or_eq_one.mp hle with h0 | h1
  · constructor
    · rw [hnot, respCount_append, h0]
      simpa using h.1
    · intro hge
      rw [hnot, respCount_append, h0, Nat.add_zero] at hge
      obtain ⟨r, hfr, hrr⟩ := h.2 hge
      obtain ⟨r', hr', he⟩ := processNote_evol cfg pid a iid ct now d note st k r hfr
      refine ⟨r', hr', ?_⟩
      rw [he.frozen hrr]
      exact hrr
  · have hstz : respCount st.notifs k = 0 := by
      by_contra hc
      obtain ⟨r, hfr, hrr⟩ := h.2 (Nat.one_le_iff_ne_zero.mpr hc)
      have hf := (hone h1).1 r hfr
      rw [hf] at hrr
      exact absurd hrr (by simp)
    constructor
    · rw [hnot, respCount_append, hstz, h1]
    · intro _
      exact (hone h1).2

theorem processNotes_respOk (cfg : Config) (pid : Nat) (a : String)
    (iid : Nat) (ct now : Int) (d : Discussion) (ns : List Note) (st : St)
    (k : String) (h : RespOk st.ledger st.notifs k) :
    RespOk ((processNotes cfg pid a iid ct now d ns st).1).ledger
      ((processNotes cfg pid a iid ct now d ns st).1).notifs k := by
  induction ns generalizing st with
  | nil => exact h
  | cons n rest ih =>
    rcases hstep : processNote cfg pid a iid ct now d n st with ⟨st', b⟩
    have hn := processNote_respOk cfg pid a iid ct now d n st k h
    rw [hstep] at hn
    cases b with
    | true =>
      rw [processNotes_cons_raise cfg pid a iid ct now d n rest st st' hstep]
      exact hn
    | false =>
      rw [processNotes_cons_ok cfg pid a iid ct now d n rest st st' hstep]
      exact ih st' hn

theorem processDiscussions_respOk (cfg : Config) (pid : Nat) (a : String)
    (iid : Nat) (ct now : Int) (ds : List Discussion) (st : St)
    (k : String) (h : RespOk st.ledger st.notifs k) :
    RespOk ((processDiscussions cfg pid a iid ct now ds st).1).ledger
      ((processDiscussions cfg pid a iid ct now ds st).1).notifs k := by
  induction ds generalizing st with
  | nil => exact h
  | cons d rest ih =>
    rcases hstep : processNotes cfg pid a iid ct now d d.notes st with ⟨st', b⟩
    have hn := processNotes_respOk cfg pid a iid ct now d d.notes st k h
    rw [hstep] at hn
    cases b with
    | true =>
      rw [processDiscussions_cons_raise cfg pid a iid ct now d rest st st' hstep]
      exact hn
    | false =>
      rw [processDiscussions_cons_ok cfg pid a iid ct now d rest st st' hstep]
      exact ih st' hn

theorem processMR_respOk (cfg : Config) (pid : Nat) (ct now : Int)
    (mr : MergeRequest) (lg : Ledger) (ns : List Notif) (k : String)
    (h : RespOk lg ns k) :
    RespOk (processMR cfg pid ct now mr lg ns).1.1
      (processMR cfg pid ct now mr lg ns).1.2.1 k := by
  unfold processMR
  rcases hpd : processDiscussions cfg pid mr.author mr.iid ct now mr.discussions
    { reviewers := initReviewers mr.reviewers, ledger := lg, notifs := ns,
      snaps := [] } with ⟨stx, b⟩
  have := processDiscussions_respOk cfg pid mr.author mr.iid ct now mr.discussions
    { reviewers := initReviewers mr.reviewers, ledger := lg, notifs := ns,
      snaps := [] } k h
  rw [hpd] at this
  exact this

theorem processMRs_respOk (cfg : Config) (pid : Nat) (ct now : Int)
    (mrs : List MergeRequest) (s : Ledger × List Notif) (k : String)
    (h : RespOk s.1 s.2 k) :
    RespOk (processMRs cfg pid ct now mrs s).1.1
      (processMRs cfg pid ct now mrs s).1.2 k := by
  induction mrs generalizing s with
  | nil => exact h
  | cons mr rest ih =>
    rcases s with ⟨lg, nsx⟩
    rcases hstep : processMR cfg pid ct now mr lg nsx with ⟨⟨lg', ns', sn⟩, b⟩
    have hn := processMR_respOk cfg pid ct now mr lg nsx k h
    rw [hstep] at hn
    cases b with
    | true =>
      rw [processMRs_cons_raise cfg pid ct now mr rest lg lg' nsx ns' sn hstep]
      exact hn
    | false =>
      rw [processMRs_cons_ok cfg pid ct now mr rest lg lg' nsx ns' sn hstep]
      exact ih (lg', ns') hn

theorem processProjects_respOk (cfg : Config) (ct now : Int) (ps : List Project)
    (s : Ledger × List Notif) (k : String) (h : RespOk s.1 s.2 k) :
    RespOk (processProjects cfg ct now ps s).1.1
      (processProjects cfg ct now ps s).1.2 k := by
  induction ps generalizing s with
  | nil => exact h
  | cons p rest ih =>
    rcases hstep : processMRs cfg p.id ct now p.mrs s with ⟨s', b⟩
    have hn := processMRs_respOk cfg p.id ct now p.mrs s k h
    rw [hstep] at hn
    cases b with
    | true =>
      rw [processProjects_cons_raise cfg ct now p rest s s' hstep]
      exact hn
    | false =>
      rw [processProjects_cons_ok cfg ct now p rest s s' hstep]
      exact ih s' hn

theorem cycle_respOk (cfg : Config) (ct now : Int) (ps : List Project)
    (lg : Ledger) (k : String) :
    respCount (check_for_new_comments cfg ct now ps lg).1.2 k ≤ 1 ∧
    (1 ≤ respCount (check_for_new_comments cfg ct now ps lg).1.2 k →
      ∃ r, dictFind (check_for_new_comments cfg ct now ps lg).1.1 k = some r ∧
        r.responded = true) := by
  have h0 : RespOk ((lg, ([] : List Notif)) : Ledger × List Notif).1
      ((lg, ([] : List Notif)) : Ledger × List Notif).2 k :=
    ⟨by simp [respCount], by simp [respCount]⟩
  exact processProjects_respOk cfg ct now ps (lg, []) k h0

theorem runCycles_resp_zero (cfg : Config) (cycles : List CycleInput)
    (lg : Ledger) (k : String) (r : Record) (h : dictFind lg k = some r)
    (hr : r.responded = true) :
    dictFind (runCycles cfg cycles lg).1 k = some r ∧
    respCount (runCycles cfg cycles lg).2 k = 0 := by
  induction cycles generalizing lg with
  | nil => exact ⟨h, rfl⟩
  | cons c rest ih =>
    rcases hc : check_for_new_comments cfg c.current_time c.now c.projects lg
      with ⟨⟨lg', ns⟩, b⟩
    have hcy := cycle_resp_frozen cfg c.current_time c.now c.projects lg k r h hr
    rw [hc] at hcy
    rw [runCycles_cons_eq cfg c rest lg lg' ns b hc]
    obtain ⟨ih1, ih2⟩ := ih lg' hcy.1
    refine ⟨ih1, ?_⟩
    rw [respCount_append]
    simp only at hcy
    rw [hcy.2, ih2]

theorem runCycles_resp_le (cfg : Config) (cycles : List CycleInput)
    (lg : Ledger) (k : String) :
    respCount (runCycles cfg cycles lg).2 k ≤ 1 := by
  induction cycles generalizing lg with
  | nil => simp [runCycles, respCount]
  | cons c rest ih =>
    rcases hc : check_for_new_comments cfg c.current_time c.now c.projects lg
      with ⟨⟨lg', ns⟩, b⟩
    rw [runCycles_cons_eq cfg c rest lg lg' ns b hc, respCount_append]
    have hcy := cycle_respOk cfg c.current_time c.now c.projects lg k
    rw [hc] at hcy
    simp only at hcy
    rcases Nat.le_one_iff_eq_zero_or_eq_one.mp hcy.1 with h0 | h1
    · rw [h0]
      simpa using ih lg'
    · obtain ⟨r, hfr, hrr⟩ := hcy.2 (by rw [h1])
      obtain ⟨_, hz⟩ := runCycles_resp_zero cfg rest lg' k r hfr hrr
      rw [h1, hz]

/-! The ledger, notifications and raised flag are independent of the reviewer
set carried in the state: the line-303 membership test is always satisfied
when the line-301/302 guards hold, because the note's author was inserted at
line 249 before the scan. -/

theorem processNotes_rev_irrel (cfg : Config) (pid : Nat) (a : String)
    (iid : Nat) (ct now : Int) (d : Discussion) (ns : List Note)
    (st1 st2 : St) (hL : st1.ledger = st2.ledger) (hN : st1.notifs = st2.notifs) :
    ((processNotes cfg pid a iid ct now d ns st1).1.ledger =
      (processNotes cfg pid a iid ct now d ns st2).1.ledger) ∧
    ((processNotes cfg pid a iid ct now d ns st1).1.notifs =
      (processNotes cfg pid a iid ct now d ns st2).1.notifs) ∧
    ((processNotes cfg pid a iid ct now d ns st1).2 =
      (processNotes cfg pid a iid ct now d ns st2).2) := by
  induction ns generalizing st1 st2 with
  | nil => exact ⟨hL, hN, rfl⟩
  | cons n rest ih =>
    rcases hs1 : processNote cfg pid a iid ct now d n st1 with ⟨s1, b1⟩
    rcases hs2 : processNote cfg pid a iid ct now d n st2 with ⟨s2, b2⟩
    obtain ⟨gl, gn, gb⟩ := processNote_rev_irrel cfg pid a iid ct now d n st1 st2 hL hN
    rw [hs1, hs2] at gl gn gb
    simp only at gl gn gb
    subst gb
    cases b1 with
    | true =>
      rw [processNotes_cons_raise cfg pid a iid ct now d n rest st1 s1 hs1,
        processNotes_cons_raise cfg pid a iid ct now d n rest st2 s2 hs2]
      exact ⟨gl, gn, rfl⟩
    | false =>
      rw [processNotes_cons_ok cfg pid a iid ct now d n rest st1 s1 hs1,
        processNotes_cons_ok cfg pid a iid ct now d n rest st2 s2 hs2]
      exact ih s1 s2 gl gn

theorem processDiscussions_rev_irrel (cfg : Config) (pid : Nat) (a : String)
    (iid : Nat) (ct now : Int) (ds : List Discussion) (st1 st2 : St)
    (hL : st1.ledger = st2.ledger) (hN : st1.notifs = st2.notifs) :
    ((processDiscussions cfg pid a iid ct now ds st1).1.ledger =
      (processDiscussions cfg pid a iid ct now ds st2).1.ledger) ∧
    ((processDiscussions cfg pid a iid ct now ds st1).1.notifs =
      (processDiscussions cfg pid a iid ct now ds st2).1.notifs) ∧
    ((processDiscussions cfg pid a iid ct now ds st1).2 =
      (processDiscussions cfg pid a iid ct now ds st2).2) := by
  induction ds generalizing st1 st2 with
  | nil => exact ⟨hL, hN, rfl⟩
  | cons d rest ih =>
    rcases hs1 : processNotes cfg pid a iid ct now d d.notes st1 with ⟨s1, b1⟩
    rcases hs2 : processNotes cfg pid a iid ct now d d.notes st2 with ⟨s2, b2⟩
    obtain ⟨gl, gn, gb⟩ := processNotes_rev_irrel cfg pid a iid ct now d d.notes
      st1 st2 hL hN
    rw [hs1, hs2] at gl gn gb
    simp only at gl gn gb
    subst gb
    cases b1 with
    | true =>
      rw [processDiscussions_cons_raise cfg pid a iid ct now d rest st1 s1 hs1,
        processDiscussions_cons_raise cfg pid a iid ct now d rest st2 s2 hs2]
      exact ⟨gl, gn, rfl⟩
    | false =>
      rw [processDiscussions_cons_ok cfg pid a iid ct now d rest st1 s1 hs1,
        processDiscussions_cons_ok cfg pid a iid ct now d rest st2 s2 hs2]
      exact ih s1 s2 gl gn

theorem processMR_prebuilt_equiv (cfg : Config) (pid : Nat) (ct now : Int)
    (mr : MergeRequest) (lg : Ledger) (ns : List Notif) :
    ((processMR cfg pid ct now mr lg ns).1.1 =
      (processMRPrebuilt cfg pid ct now mr lg ns).1.1) ∧
    ((processMR cfg pid ct now mr lg ns).1.2.1 =
      (processMRPrebuilt cfg pid ct now mr lg ns).1.2) ∧
    ((processMR cfg pid ct now mr lg ns).2 =
      (processMRPrebuilt cfg pid ct now mr lg ns).2) := by
  unfold processMR processMRPrebuilt
  rcases h1 : processDiscussions cfg pid mr.author mr.iid ct now mr.discussions
    { reviewers := initReviewers mr.reviewers, ledger := lg, notifs := ns,
      snaps := [] } with ⟨sa, ba⟩
  rcases h2 : processDiscussions cfg pid mr.author mr.iid ct now mr.discussions
    { reviewers := fullReviewers mr, ledger := lg, notifs := ns,
      snaps := [] } with ⟨sb, bb⟩
  obtain ⟨gl, gn, gb⟩ := processDiscussions_rev_irrel cfg pid mr.author mr.iid
    ct now mr.discussions
    { reviewers := initReviewers mr.reviewers, ledger := lg, notifs := ns,
      snaps := [] }
    { reviewers := fullReviewers mr, ledger := lg, notifs := ns, snaps := [] }
    rfl rfl
  rw [h1, h2] at gl gn gb
  exact ⟨gl, gn, gb⟩

/-! Claim theorems. -/

/-- C1: for a note processed in a cycle (non-system, author passing the user
filter, no exception), the record's `followup_sent` flag is newly set in that
cycle iff the record visible at the follow-up check (the pre-existing one, or
the fresh record just created — so the "record exists" conjunct always holds)
has `responded = false`, `followup_sent = false`, and `now − created_at`
exceeds 24 hours.  The flag is committed before any dispatch is attempted:
the resulting ledger is the same under every Slack user map, so a missing
mapping (dropped notification) cannot undo the marking — a comment still
unanswered 25 hours after creation yields exactly one follow-up marking. -/
theorem claim_C1_followup_iff (cfg : Config) (pid : Nat) (a : String)
    (iid : Nat) (ct now : Int) (d : Discussion) (note : Note) (st st' : St)
    (hsys : note.system = false)
    (htrk : should_track_user cfg note.author = true)
    (hrun : processNote cfg pid a iid ct now d note st = (st', false)) :
    ∃ r', dictFind st'.ledger note.id = some r' ∧
      ((r'.followup_sent = true ∧
          ((dictFind st.ledger note.id).getD
            (freshRecord pid iid note ct)).followup_sent = false) ↔
        (((dictFind st.ledger note.id).getD
            (freshRecord pid iid note ct)).responded = false ∧
          ((dictFind st.ledger note.id).getD
            (freshRecord pid iid note ct)).followup_sent = false ∧
          overdue ((dictFind st.ledger note.id).getD
            (freshRecord pid iid note ct)).created_at now = true)) ∧
      (∀ m : List (String × String),
        ((processNote ⟨cfg.tracked_users, m⟩ pid a iid ct now d note st).1).ledger =
          st'.ledger) := by
  obtain ⟨r', hr', hfol⟩ := processNote_followup_eq cfg pid a iid ct now d note
    st st' hsys htrk hrun
  refine ⟨r', hr', ?_, ?_⟩
  · rw [hfol]
    cases hb1 : ((dictFind st.ledger note.id).getD
        (freshRecord pid iid note ct)).responded <;>
      cases hb2 : ((dictFind st.ledger note.id).getD
        (freshRecord pid iid note ct)).followup_sent <;>
      cases hb3 : overdue ((dictFind st.ledger note.id).getD
        (freshRecord pid iid note ct)).created_at now <;>
      simp [needsFollowupFlag, hb1, hb2, hb3]
  · intro m
    have := (processNote_cfg_ledger cfg ⟨cfg.tracked_users, m⟩ rfl pid a iid ct
      now d note st).1
    rw [hrun] at this
    exact this.symm

/-- Witness for C1: a 25-hour-old unanswered comment by alice on bob's merge
request, processed with an empty allowlist and an empty Slack map. -/
theorem claim_C1_followup_iff_witness :
    (⟨"1", "alice", false, some 0⟩ : Note).system = false ∧
    should_track_user ⟨[], []⟩ (⟨"1", "alice", false, some 0⟩ : Note).author = true ∧
    processNote ⟨[], []⟩ 1 "bob" 2 90000 90000 ⟨[⟨"1", "alice", false, some 0⟩]⟩
      ⟨"1", "alice", false, some 0⟩ ⟨[], [], [], []⟩ =
      ((processNote ⟨[], []⟩ 1 "bob" 2 90000 90000 ⟨[⟨"1", "alice", false, some 0⟩]⟩
        ⟨"1", "alice", false, some 0⟩ ⟨[], [], [], []⟩).1, false) ∧
    (∃ r', dictFind ((processNote ⟨[], []⟩ 1 "bob" 2 90000 90000
        ⟨[⟨"1", "alice", false, some 0⟩]⟩ ⟨"1", "alice", false, some 0⟩
        ⟨[], [], [], []⟩).1).ledger (⟨"1", "alice", false, some 0⟩ : Note).id =
        some r' ∧
      ((r'.followup_sent = true ∧
          ((dictFind ([] : Ledger) (⟨"1", "alice", false, some 0⟩ : Note).id).getD
            (freshRecord 1 2 ⟨"1", "alice", false, some 0⟩ 90000)).followup_sent = false) ↔
        (((dictFind ([] : Ledger) (⟨"1", "alice", false, some 0⟩ : Note).id).getD
            (freshRecord 1 2 ⟨"1", "alice", false, some 0⟩ 90000)).responded = false ∧
          ((dictFind ([] : Ledger) (⟨"1", "alice", false, some 0⟩ : Note).id).getD
            (freshRecord 1 2 ⟨"1", "alice", false, some 0⟩ 90000)).followup_sent = false ∧
          overdue ((dictFind ([] : Ledger) (⟨"1", "alice", false, some 0⟩ : Note).id).getD
            (freshRecord 1 2 ⟨"1", "alice", false, some 0⟩ 90000)).created_at 90000 = true)) ∧
      (∀ m : List (String × String),
        ((processNote ⟨[], m⟩ 1 "bob" 2 90000 90000 ⟨[⟨"1", "alice", false, some 0⟩]⟩
          ⟨"1", "alice", false, some 0⟩ ⟨[], [], [], []⟩).1).ledger =
          ((processNote ⟨[], []⟩ 1 "bob" 2 90000 90000 ⟨[⟨"1", "alice", false, some 0⟩]⟩
            ⟨"1", "alice", false, some 0⟩ ⟨[], [], [], []⟩).1).ledger)) :=
  ⟨rfl, rfl, by decide,
    claim_C1_followup_iff ⟨[], []⟩ 1 "bob" 2 90000 90000
      ⟨[⟨"1", "alice", false, some 0⟩]⟩ ⟨"1", "alice", false, some 0⟩
      ⟨[], [], [], []⟩ _ rfl rfl (by decide)⟩

/-- C2: a record whose `responded` flag is true is completely frozen: a cycle
returns it verbatim, so `responded` transitions false→true at most once and
never reverts, and `responder` never changes afterwards.  At the transition,
`responder` is set to the author of the first qualifying response in thread
order — the first non-system note by a different author with a strictly
later parsed timestamp (`firstQualifyingResponder`).  Later qualifying
responses neither change `responder` (frozen record) nor trigger another
response notification to the comment author (a cycle starting from a
responded record emits none for it). -/
theorem claim_C2_responded_once (cfg : Config) :
    (∀ (ct now : Int) (ps : List Project) (lg : Ledger) (k : String) (r : Record),
      dictFind lg k = some r → r.responded = true →
      dictFind (check_for_new_comments cfg ct now ps lg).1.1 k = some r) ∧
    (∀ (a : String) (note : Note) (cands : List Note) (st : St) (r : Record),
      dictFind st.ledger note.id = some r → r.responded = false →
      (scanResponses cfg a note cands st).2 = false →
      dictFind ((scanResponses cfg a note cands st).1).ledger note.id =
        some (match firstQualifyingResponder note cands with
              | some a2 => { r with responded := true, responder := some a2 }
              | none => r)) ∧
    (∀ (ct now : Int) (ps : List Project) (lg : Ledger) (k : String) (r : Record),
      dictFind lg k = some r → r.responded = true →
      respCount (check_for_new_comments cfg ct now ps lg).1.2 k = 0) := by
  refine ⟨?_, ?_, ?_⟩
  · intro ct now ps lg k r h hr
    obtain ⟨r', hr', he⟩ := cycle_evol cfg ct now ps lg k r h
    rw [he.frozen hr] at hr'
    exact hr'
  · intro a note cands st r h hr hok
    exact scan_first_qualifying cfg a note cands st r h hr hok
  · intro ct now ps lg k r h hr
    exact (cycle_resp_frozen cfg ct now ps lg k r h hr).2

/-- Witness for C2: a responded record survives a cycle that re-observes its
note and a later qualifying response, unchanged and without notifications;
and a scan marks an unresponded record with the first qualifying responder. -/
theorem claim_C2_responded_once_witness :
    (dictFind [("1", (⟨1, 2, "alice", some 0, 3, true, some "bob", false⟩ : Record))]
        "1" = some ⟨1, 2, "alice", some 0, 3, true, some "bob", false⟩ ∧
      (⟨1, 2, "alice", some 0, 3, true, some "bob", false⟩ : Record).responded = true ∧
      dictFind (check_for_new_comments ⟨[], []⟩ 5 5
        [⟨1, "p", [⟨2, "bob", "t", [],
          [⟨[⟨"1", "alice", false, some 0⟩, ⟨"9", "bob", false, some 10⟩]⟩]⟩]⟩]
        [("1", ⟨1, 2, "alice", some 0, 3, true, some "bob", false⟩)]).1.1 "1" =
        some ⟨1, 2, "alice", some 0, 3, true, some "bob", false⟩) ∧
    (dictFind [("1", (⟨1, 2, "alice", some 0, 3, false, none, false⟩ : Record))]
        (⟨"1", "alice", false, some 0⟩ : Note).id =
        some ⟨1, 2, "alice", some 0, 3, false, none, false⟩ ∧
      dictFind ((scanResponses ⟨[], []⟩ "bob" ⟨"1", "alice", false, some 0⟩
        [⟨"1", "alice", false, some 0⟩, ⟨"8", "carol", false, some 4⟩,
          ⟨"9", "bob", false, some 7⟩]
        ⟨[], [("1", ⟨1, 2, "alice", some 0, 3, false, none, false⟩)], [], []⟩).1).ledger
        (⟨"1", "alice", false, some 0⟩ : Note).id =
        some (match firstQualifyingResponder ⟨"1", "alice", false, some 0⟩
            [⟨"1", "alice", false, some 0⟩, ⟨"8", "carol", false, some 4⟩,
              ⟨"9", "bob", false, some 7⟩] with
          | some a2 => { (⟨1, 2, "alice", some 0, 3, false, none, false⟩ : Record) with
              responded := true, responder := some a2 }
          | none => ⟨1, 2, "alice", some 0, 3, false, none, false⟩)) :=
  ⟨⟨by decide, rfl,
    (claim_C2_responded_once ⟨[], []⟩).1 5 5
      [⟨1, "p", [⟨2, "bob", "t", [],
        [⟨[⟨"1", "alice", false, some 0⟩, ⟨"9", "bob", false, some 10⟩]⟩]⟩]⟩]
      [("1", ⟨1, 2, "alice", some 0, 3, true, some "bob", false⟩)] "1"
      ⟨1, 2, "alice", some 0, 3, true, some "bob", false⟩ (by decide) rfl⟩,
   ⟨by decide,
    (claim_C2_responded_once ⟨[], []⟩).2.1 "bob" ⟨"1", "alice", false, some 0⟩
      [⟨"1", "alice", false, some 0⟩, ⟨"8", "carol", false, some 4⟩,
        ⟨"9", "bob", false, some 7⟩]
      ⟨[], [("1", ⟨1, 2, "alice", some 0, 3, false, none, false⟩)], [], []⟩
      ⟨1, 2, "alice", some 0, 3, false, none, false⟩ (by decide) rfl (by decide)⟩⟩

/-- C3: when the tracked-user allowlist is non-empty and a note's author is
not in it, processing that note leaves the ledger and the notification list
untouched and raises nothing (lines 251-253 skip it after the reviewer-set
insertion).  Yet response detection is filter-blind: the scan's ledger effect
and raised flag are identical under every configuration, and the record is
marked responded by the first qualifying responder with no condition on that
responder being tracked — so an untracked author's note can still resolve a
tracked note's record. -/
theorem claim_C3_filter_skip (cfg : Config) (note : Note)
    (h1 : cfg.tracked_users ≠ [])
    (h2 : listHas cfg.tracked_users note.author = false) :
    (∀ (pid : Nat) (a : String) (iid : Nat) (ct now : Int) (d : Discussion) (st : St),
      (processNote cfg pid a iid ct now d note st).1.ledger = st.ledger ∧
      (processNote cfg pid a iid ct now d note st).1.notifs = st.notifs ∧
      (processNote cfg pid a iid ct now d note st).2 = false) ∧
    (∀ (cfg2 : Config) (a : String) (note2 : Note) (cands : List Note) (st : St),
      ((scanResponses cfg a note2 cands st).1.ledger =
        (scanResponses cfg2 a note2 cands st).1.ledger) ∧
      ((scanResponses cfg a note2 cands st).2 =
        (scanResponses cfg2 a note2 cands st).2)) ∧
    (∀ (a : String) (note2 : Note) (cands : List Note) (st : St) (r : Record),
      dictFind st.ledger note2.id = some r → r.responded = false →
      (scanResponses cfg a note2 cands st).2 = false →
      dictFind ((scanResponses cfg a note2 cands st).1).ledger note2.id =
        some (match firstQualifyingResponder note2 cands with
              | some a2 => { r with responded := true, responder := some a2 }
              | none => r)) := by
  have hempty : cfg.tracked_users.isEmpty = false := by
    cases hxx : cfg.tracked_users.isEmpty
    · rfl
    · exact absurd (List.isEmpty_iff.mp hxx) h1
  have htrk : should_track_user cfg note.author = false := by
    unfold should_track_user
    simp [hempty, h2]
  refine ⟨?_, ?_, ?_⟩
  · intro pid a iid ct now d st
    by_cases hsys : note.system = true
    · rw [processNote_system_eq cfg pid a iid ct now d note st hsys]
      exact ⟨rfl, rfl, rfl⟩
    · have hsys' : note.system = false := by simpa using hsys
      rw [processNote_filtered_eq cfg pid a iid ct now d note st hsys' htrk]
      exact ⟨rfl, rfl, rfl⟩
  · intro cfg2 a note2 cands st
    exact scan_ledger_congr cfg cfg2 a a note2 cands st st rfl
  · intro a note2 cands st r h hr hok
    exact scan_first_qualifying cfg a note2 cands st r h hr hok

/-- Witness for C3: with allowlist ["alice"], a note by bob is skipped
entirely, yet a scan under that same configuration lets carol — also
untracked — become the recorded responder of alice's note. -/
theorem claim_C3_filter_skip_witness :
    ((⟨["alice"], []⟩ : Config).tracked_users ≠ [] ∧
      listHas (⟨["alice"], []⟩ : Config).tracked_users
        (⟨"7", "bob", false, some 0⟩ : Note).author = false) ∧
    ((processNote ⟨["alice"], []⟩ 1 "m" 2 5 5 ⟨[⟨"7", "bob", false, some 0⟩]⟩
        ⟨"7", "bob", false, some 0⟩ ⟨[], [], [], []⟩).1.ledger = [] ∧
      (processNote ⟨["alice"], []⟩ 1 "m" 2 5 5 ⟨[⟨"7", "bob", false, some 0⟩]⟩
        ⟨"7", "bob", false, some 0⟩ ⟨[], [], [], []⟩).1.notifs = [] ∧
      (processNote ⟨["alice"], []⟩ 1 "m" 2 5 5 ⟨[⟨"7", "bob", false, some 0⟩]⟩
        ⟨"7", "bob", false, some 0⟩ ⟨[], [], [], []⟩).2 = false) ∧
    dictFind ((scanResponses ⟨["alice"], []⟩ "m" ⟨"1", "alice", false, some 0⟩
        [⟨"8", "carol", false, some 4⟩]
        ⟨[], [("1", ⟨1, 2, "alice", some 0, 3, false, none, false⟩)], [], []⟩).1).ledger
      (⟨"1", "alice", false, some 0⟩ : Note).id =
      some (match firstQualifyingResponder ⟨"1", "alice", false, some 0⟩
          [⟨"8", "carol", false, some 4⟩] with
        | some a2 => { (⟨1, 2, "alice", some 0, 3, false, none, false⟩ : Record) with
            responded := true, responder := some a2 }
        | none => ⟨1, 2, "alice", some 0, 3, false, none, false⟩) :=
  ⟨⟨by decide, rfl⟩,
   (claim_C3_filter_skip ⟨["alice"], []⟩ ⟨"7", "bob", false, some 0⟩
      (by decide) rfl).1 1 "m" 2 5 5 ⟨[⟨"7", "bob", false, some 0⟩]⟩
      ⟨[], [], [], []⟩,
   (claim_C3_filter_skip ⟨["alice"], []⟩ ⟨"7", "bob", false, some 0⟩
      (by decide) rfl).2.2 "m" ⟨"1", "alice", false, some 0⟩
      [⟨"8", "carol", false, some 4⟩]
      ⟨[], [("1", ⟨1, 2, "alice", some 0, 3, false, none, false⟩)], [], []⟩
      ⟨1, 2, "alice", some 0, 3, false, none, false⟩ (by decide) rfl (by decide)⟩

/-- C4: for a processed note (non-system, tracked, no exception), the only
notification to the MR author appended beyond the scan's response
notifications is exactly `authorNotif` evaluated at "newly observed"
(`is_new`, the id was absent from the ledger) and "marked due for follow-up"
(`needsFollowupFlag` of the record at check time); `authorNotif` emits at
most one message, only when `is_new ∨ needs_followup`, the note's author
differs from the MR author, the MR author passes the user filter and has a
Slack id, and its template is the follow-up one iff `needs_followup` — so
the two forms are mutually exclusive per note and cycle, and follow-up takes
precedence when the note is both newly observed and overdue. -/
theorem claim_C4_author_notification (cfg : Config) (pid : Nat) (a : String)
    (iid : Nat) (ct now : Int) (d : Discussion) (note : Note) (st st' : St)
    (hsys : note.system = false)
    (htrk : should_track_user cfg note.author = true)
    (hrun : processNote cfg pid a iid ct now d note st = (st', false)) :
    (∃ extra, st'.notifs = (st.notifs ++ extra) ++
        authorNotif cfg a note (dictFind st.ledger note.id).isNone
          (needsFollowupFlag
            ((dictFind st.ledger note.id).getD (freshRecord pid iid note ct)) now) ∧
      ∀ n ∈ extra, n.kind = NotifKind.response) ∧
    (∀ b f : Bool, (authorNotif cfg a note b f).length ≤ 1) ∧
    (∀ (b f : Bool) (n : Notif), n ∈ authorNotif cfg a note b f →
      (b || f) = true ∧ note.author ≠ a ∧ should_track_user cfg a = true ∧
      n.recipient = a ∧ n.note_id = note.id ∧
      get_slack_user_id cfg a = some n.slack_user ∧
      (n.kind = NotifKind.followup ↔ f = true) ∧
      (n.kind = NotifKind.newComment ↔ f = false)) := by
  refine ⟨?_, ?_, ?_⟩
  · obtain ⟨extra, hnot, hall⟩ := processNote_notifs_char cfg pid a iid ct now d
      note st st' hsys htrk hrun
    exact ⟨extra, hnot, fun n hn => (hall n hn).1⟩
  · intro b f
    rcases authorNotif_cases cfg a note b f with h | ⟨su, h, _⟩ <;> rw [h] <;> simp
  · intro b f n hn
    rcases authorNotif_cases cfg a note b f with h | ⟨su, h, hbf, hne, htr, hmap⟩
    · rw [h] at hn
      cases hn
    · rw [h] at hn
      rcases List.mem_singleton.mp hn with rfl
      refine ⟨hbf, hne, htr, rfl, rfl, hmap, ?_, ?_⟩ <;> cases f <;> simp

/-- Witness for C4: a fresh comment by alice on bob's merge request with
bob's Slack id mapped — the dispatch reduces to `authorNotif` at
`is_new = true`, `needs_followup = false`. -/
theorem claim_C4_author_notification_witness :
    (⟨"1", "alice", false, some 0⟩ : Note).system = false ∧
    should_track_user ⟨[], [("bob", "UB")]⟩
      (⟨"1", "alice", false, some 0⟩ : Note).author = true ∧
    processNote ⟨[], [("bob", "UB")]⟩ 1 "bob" 2 5 5
      ⟨[⟨"1", "alice", false, some 0⟩]⟩ ⟨"1", "alice", false, some 0⟩
      ⟨[], [], [], []⟩ =
      ((processNote ⟨[], [("bob", "UB")]⟩ 1 "bob" 2 5 5
        ⟨[⟨"1", "alice", false, some 0⟩]⟩ ⟨"1", "alice", false, some 0⟩
        ⟨[], [], [], []⟩).1, false) ∧
    ((∃ extra, ((processNote ⟨[], [("bob", "UB")]⟩ 1 "bob" 2 5 5
          ⟨[⟨"1", "alice", false, some 0⟩]⟩ ⟨"1", "alice", false, some 0⟩
          ⟨[], [], [], []⟩).1).notifs = (([] : List Notif) ++ extra) ++
          authorNotif ⟨[], [("bob", "UB")]⟩ "bob" ⟨"1", "alice", false, some 0⟩
            (dictFind ([] : Ledger) (⟨"1", "alice", false, some 0⟩ : Note).id).isNone
            (needsFollowupFlag
              ((dictFind ([] : Ledger) (⟨"1", "alice", false, some 0⟩ : Note).id).getD
                (freshRecord 1 2 ⟨"1", "alice", false, some 0⟩ 5)) 5) ∧
        ∀ n ∈ extra, n.kind = NotifKind.response) ∧
      (∀ b f : Bool,
        (authorNotif ⟨[], [("bob", "UB")]⟩ "bob" ⟨"1", "alice", false, some 0⟩ b f).length ≤ 1) ∧
      (∀ (b f : Bool) (n : Notif),
        n ∈ authorNotif ⟨[], [("bob", "UB")]⟩ "bob" ⟨"1", "alice", false, some 0⟩ b f →
        (b || f) = true ∧ (⟨"1", "alice", false, some 0⟩ : Note).author ≠ "bob" ∧
        should_track_user ⟨[], [("bob", "UB")]⟩ "bob" = true ∧
        n.recipient = "bob" ∧ n.note_id = (⟨"1", "alice", false, some 0⟩ : Note).id ∧
        get_slack_user_id ⟨[], [("bob", "UB")]⟩ "bob" = some n.slack_user ∧
        (n.kind = NotifKind.followup ↔ f = true) ∧
        (n.kind = NotifKind.newComment ↔ f = false))) :=
  ⟨rfl, rfl, by decide,
    claim_C4_author_notification ⟨[], [("bob", "UB")]⟩ 1 "bob" 2 5 5
      ⟨[⟨"1", "alice", false, some 0⟩]⟩ ⟨"1", "alice", false, some 0⟩
      ⟨[], [], [], []⟩ _ rfl rfl (by decide)⟩

/-- C5: the scan appends either nothing or exactly one response
notification, and in the latter case the notification goes to the original
note's author, that author is in the reviewer set and passes the user filter
and has a Slack id, the record transitions from unresponded to responded at
that very point, and the recorded responder is the MR author.  A cycle
starting from an already-responded record emits no response notification for
it, and over any whole multi-cycle run at most one response notification is
ever dispatched per record. -/
theorem claim_C5_response_once (cfg : Config) :
    (∀ (a : String) (note : Note) (cands : List Note) (st : St),
      ∃ extra, ((scanResponses cfg a note cands st).1).notifs = st.notifs ++ extra ∧
        (extra = [] ∨
          ∃ su r r', extra = [⟨NotifKind.response, su, note.author, note.id⟩] ∧
            get_slack_user_id cfg note.author = some su ∧
            should_track_user cfg note.author = true ∧
            listHas st.reviewers note.author = true ∧
            a ≠ note.author ∧
            dictFind st.ledger note.id = some r ∧ r.responded = false ∧
            dictFind ((scanResponses cfg a note cands st).1).ledger note.id =
              some r' ∧ r'.responded = true ∧ r'.responder = some a)) ∧
    (∀ (ct now : Int) (ps : List Project) (lg : Ledger) (k : String) (r : Record),
      dictFind lg k = some r → r.responded = true →
      respCount (check_for_new_comments cfg ct now ps lg).1.2 k = 0) ∧
    (∀ (cycles : List CycleInput) (lg : Ledger) (k : String),
      respCount (runCycles cfg cycles lg).2 k ≤ 1) := by
  refine ⟨?_, ?_, ?_⟩
  · intro a note cands st
    exact scan_notifs_char cfg a note cands st
  · intro ct now ps lg k r h hr
    exact (cycle_resp_frozen cfg ct now ps lg k r h hr).2
  · intro cycles lg k
    exact runCycles_resp_le cfg cycles lg k

/-- Witness for C5: the Scenario C setup — alice's tracked comment, bob (the
MR author) replies later in the same thread, alice is mapped — run twice:
at most one response notification overall, and a cycle beginning from the
already-responded record emits none. -/
theorem claim_C5_response_once_witness :
    (dictFind [("1", (⟨1, 2, "alice", some 0, 3, true, some "bob", false⟩ : Record))]
        "1" = some ⟨1, 2, "alice", some 0, 3, true, some "bob", false⟩ ∧
      (⟨1, 2, "alice", some 0, 3, true, some "bob", false⟩ : Record).responded = true ∧
      respCount (check_for_new_comments ⟨[], [("alice", "UA")]⟩ 5 5
        [⟨1, "p", [⟨2, "bob", "t", [],
          [⟨[⟨"1", "alice", false, some 0⟩, ⟨"9", "bob", false, some 10⟩]⟩]⟩]⟩]
        [("1", ⟨1, 2, "alice", some 0, 3, true, some "bob", false⟩)]).1.2 "1" = 0) ∧
    respCount (runCycles ⟨[], [("alice", "UA")]⟩
      [⟨5, 5, [⟨1, "p", [⟨2, "bob", "t", [],
          [⟨[⟨"1", "alice", false, some 0⟩, ⟨"9", "bob", false, some 10⟩]⟩]⟩]⟩]⟩,
       ⟨6, 6, [⟨1, "p", [⟨2, "bob", "t", [],
          [⟨[⟨"1", "alice", false, some 0⟩, ⟨"9", "bob", false, some 10⟩]⟩]⟩]⟩]⟩]
      []).2 "1" ≤ 1 :=
  ⟨⟨by decide, rfl,
    (claim_C5_response_once ⟨[], [("alice", "UA")]⟩).2.1 5 5
      [⟨1, "p", [⟨2, "bob", "t", [],
        [⟨[⟨"1", "alice", false, some 0⟩, ⟨"9", "bob", false, some 10⟩]⟩]⟩]⟩]
      [("1", ⟨1, 2, "alice", some 0, 3, true, some "bob", false⟩)] "1"
      ⟨1, 2, "alice", some 0, 3, true, some "bob", false⟩ (by decide) rfl⟩,
   (claim_C5_response_once ⟨[], [("alice", "UA")]⟩).2.2
      [⟨5, 5, [⟨1, "p", [⟨2, "bob", "t", [],
          [⟨[⟨"1", "alice", false, some 0⟩, ⟨"9", "bob", false, some 10⟩]⟩]⟩]⟩]⟩,
       ⟨6, 6, [⟨1, "p", [⟨2, "bob", "t", [],
          [⟨[⟨"1", "alice", false, some 0⟩, ⟨"9", "bob", false, some 10⟩]⟩]⟩]⟩]⟩]
      [] "1"⟩

/-- C6: the ledger only grows.  Every record present before a cycle is still
present after it (with only the lawful field evolution `RecEvol`, which
keeps identity fields intact), and the same holds across any run of cycles
— no operation ever removes a record.  In a cycle that completes without an
exception, a key is present afterwards iff it was present before or a
non-system note with that id by a tracked author appears in the cycle's
data: records are created exactly on first observation, and only then. -/
theorem claim_C6_ledger_monotone (cfg : Config) :
    (∀ (ct now : Int) (ps : List Project) (lg : Ledger) (k : String) (r : Record),
      dictFind lg k = some r →
      ∃ r', dictFind (check_for_new_comments cfg ct now ps lg).1.1 k = some r' ∧
        RecEvol r r') ∧
    (∀ (ct now : Int) (ps : List Project) (lg : Ledger) (k : String),
      (check_for_new_comments cfg ct now ps lg).2 = false →
      (dictFind (check_for_new_comments cfg ct now ps lg).1.1 k).isSome =
        ((dictFind lg k).isSome || processedMention cfg ps k)) ∧
    (∀ (cycles : List CycleInput) (lg : Ledger) (k : String) (r : Record),
      dictFind lg k = some r →
      ∃ r', dictFind (runCycles cfg cycles lg).1 k = some r' ∧ RecEvol r r') := by
  refine ⟨?_, ?_, ?_⟩
  · intro ct now ps lg k r h
    exact cycle_evol cfg ct now ps lg k r h
  · intro ct now ps lg k hok
    exact processProjects_keys cfg ct now ps (lg, []) k hok
  · intro cycles lg k r h
    exact runCycles_evol cfg cycles lg k r h

/-- Witness for C6: a cycle that first observes note "1" creates its record
(present afterwards, absent before), and a pre-existing record survives a
later cycle. -/
theorem claim_C6_ledger_monotone_witness :
    ((check_for_new_comments ⟨[], []⟩ 5 5
        [⟨1, "p", [⟨2, "bob", "t", [], [⟨[⟨"1", "alice", false, some 0⟩]⟩]⟩]⟩]
        []).2 = false ∧
      (dictFind (check_for_new_comments ⟨[], []⟩ 5 5
        [⟨1, "p", [⟨2, "bob", "t", [], [⟨[⟨"1", "alice", false, some 0⟩]⟩]⟩]⟩]
        []).1.1 "1").isSome =
        ((dictFind ([] : Ledger) "1").isSome ||
          processedMention ⟨[], []⟩
            [⟨1, "p", [⟨2, "bob", "t", [], [⟨[⟨"1", "alice", false, some 0⟩]⟩]⟩]⟩] "1")) ∧
    (dictFind [("1", (⟨1, 2, "alice", some 0, 3, false, none, false⟩ : Record))]
        "1" = some ⟨1, 2, "alice", some 0, 3, false, none, false⟩ ∧
      ∃ r', dictFind (check_for_new_comments ⟨[], []⟩ 9 9
        [⟨1, "p", [⟨2, "bob", "t", [], [⟨[⟨"1", "alice", false, some 0⟩]⟩]⟩]⟩]
        [("1", ⟨1, 2, "alice", some 0, 3, false, none, false⟩)]).1.1 "1" =
        some r' ∧ RecEvol (⟨1, 2, "alice", some 0, 3, false, none, false⟩ : Record) r') :=
  ⟨⟨by decide,
    (claim_C6_ledger_monotone ⟨[], []⟩).2.1 5 5
      [⟨1, "p", [⟨2, "bob", "t", [], [⟨[⟨"1", "alice", false, some 0⟩]⟩]⟩]⟩]
      [] "1" (by decide)⟩,
   ⟨by decide,
    (claim_C6_ledger_monotone ⟨[], []⟩).1 9 9
      [⟨1, "p", [⟨2, "bob", "t", [], [⟨[⟨"1", "alice", false, some 0⟩]⟩]⟩]⟩]
      [("1", ⟨1, 2, "alice", some 0, 3, false, none, false⟩)] "1"
      ⟨1, 2, "alice", some 0, 3, false, none, false⟩ (by decide)⟩⟩

/-- Counterexample to C7: the reviewer set is NOT built fully before
notification decisions.  On an MR by "m" with a first thread (alice's note
answered by m) and a second thread by carol, the only line-301 decision is
evaluated with reviewer-set snapshot ["alice"], while the fully built set
("declared reviewers ∪ every note author ≠ MR author") also contains
"carol" — so at decision time the set does not equal the full one. -/
theorem claim_C7_prebuilt_cex :
    (processMR ⟨[], [("alice", "UA")]⟩ 1 20 20
      ⟨1, "m", "t", [],
        [⟨[⟨"a", "alice", false, some 0⟩, ⟨"b", "m", false, some 10⟩]⟩,
         ⟨[⟨"c", "carol", false, some 5⟩]⟩]⟩ [] []).1.2.2 = [["alice"]] ∧
    listHas (fullReviewers
      ⟨1, "m", "t", [],
        [⟨[⟨"a", "alice", false, some 0⟩, ⟨"b", "m", false, some 10⟩]⟩,
         ⟨[⟨"c", "carol", false, some 5⟩]⟩]⟩) "carol" = true ∧
    listHas ["alice"] "carol" = false := by
  refine ⟨by decide, by decide, by decide⟩

/-- C7 as amended: the reviewer set is extended while notes are scanned, so
at a response-notification decision it holds only the declared reviewers and
the authors scanned so far; nevertheless the decision's membership test is
always satisfied when its other conjuncts hold (the note's author was
inserted at line 249), so the produced ledger, notifications and raised flag
coincide exactly with the spec's variant that fully prebuilds the reviewer
set before any decision — the outcome does not depend on the scan order. -/
theorem claim_C7_prebuilt_equiv (cfg : Config) (pid : Nat) (ct now : Int)
    (mr : MergeRequest) (lg : Ledger) (ns : List Notif) :
    ((processMR cfg pid ct now mr lg ns).1.1 =
      (processMRPrebuilt cfg pid ct now mr lg ns).1.1) ∧
    ((processMR cfg pid ct now mr lg ns).1.2.1 =
      (processMRPrebuilt cfg pid ct now mr lg ns).1.2) ∧
    ((processMR cfg pid ct now mr lg ns).2 =
      (processMRPrebuilt cfg pid ct now mr lg ns).2) :=
  processMR_prebuilt_equiv cfg pid ct now mr lg ns

/-- Counterexample to C8: `notified_at` is not the timestamp of the first
dispatched notification.  A note authored by the MR author is tracked and
recorded with `notified_at = 100` (the cycle timestamp), yet the cycle
dispatches no notification at all for it — there is no "first notification"
whose timestamp the field could hold. -/
theorem claim_C8_notified_at_cex :
    dictFind (check_for_new_comments ⟨[], []⟩ 100 50
      [⟨1, "p", [⟨9, "m", "t", [], [⟨[⟨"1", "m", false, some 0⟩]⟩]⟩]⟩] []).1.1
      "1" = some ⟨1, 9, "m", some 0, 100, false, none, false⟩ ∧
    (check_for_new_comments ⟨[], []⟩ 100 50
      [⟨1, "p", [⟨9, "m", "t", [], [⟨[⟨"1", "m", false, some 0⟩]⟩]⟩]⟩] []).1.2 = [] := by
  refine ⟨by decide, by decide⟩

/-- C8 as amended: `notified_at` holds the cycle timestamp (`current_time`,
captured once at the top of the cycle, line 215) of the cycle in which the
record was created; it is written unconditionally at creation, whether or
not any notification is dispatched, and never modified afterwards. -/
theorem claim_C8_notified_at (cfg : Config) :
    (∀ (pid : Nat) (a : String) (iid : Nat) (ct now : Int) (d : Discussion)
        (note : Note) (st : St),
      note.system = false → should_track_user cfg note.author = true →
      dictFind st.ledger note.id = none →
      ∃ r', dictFind ((processNote cfg pid a iid ct now d note st).1).ledger
          note.id = some r' ∧
        r'.notified_at = ct ∧ r'.created_at = note.created_at ∧
        r'.author = note.author) ∧
    (∀ (cycles : List CycleInput) (lg : Ledger) (k : String) (r : Record),
      dictFind lg k = some r →
      ∃ r', dictFind (runCycles cfg cycles lg).1 k = some r' ∧
        r'.notified_at = r.notified_at) := by
  refine ⟨?_, ?_⟩
  · intro pid a iid ct now d note st hsys htrk habs
    obtain ⟨r', hr', he⟩ := processNote_creates cfg pid a iid ct now d note st
      hsys htrk
    rw [habs] at he
    exact ⟨r', hr', he.notified_at_eq, he.created_at_eq, he.author_eq⟩
  · intro cycles lg k r h
    obtain ⟨r', hr', he⟩ := runCycles_evol cfg cycles lg k r h
    exact ⟨r', hr', he.notified_at_eq⟩

/-- Witness for C8 as amended: the creation part at a concrete fresh note
and the preservation part across a concrete later cycle. -/
theorem claim_C8_notified_at_witness :
    ((⟨"1", "m", false, some 0⟩ : Note).system = false ∧
      should_track_user ⟨[], []⟩ (⟨"1", "m", false, some 0⟩ : Note).author = true ∧
      dictFind ([] : Ledger) (⟨"1", "m", false, some 0⟩ : Note).id = none ∧
      (∃ r', dictFind ((processNote ⟨[], []⟩ 1 "m" 9 100 50
          ⟨[⟨"1", "m", false, some 0⟩]⟩ ⟨"1", "m", false, some 0⟩
          ⟨[], [], [], []⟩).1).ledger (⟨"1", "m", false, some 0⟩ : Note).id =
          some r' ∧
        r'.notified_at = 100 ∧
        r'.created_at = (⟨"1", "m", false, some 0⟩ : Note).created_at ∧
        r'.author = (⟨"1", "m", false, some 0⟩ : Note).author)) ∧
    (dictFind [("1", (⟨1, 9, "m", some 0, 100, false, none, false⟩ : Record))] "1" =
        some ⟨1, 9, "m", some 0, 100, false, none, false⟩ ∧
      ∃ r', dictFind (runCycles ⟨[], []⟩
          [⟨500, 500, [⟨1, "p", [⟨9, "m", "t", [],
            [⟨[⟨"1", "m", false, some 0⟩]⟩]⟩]⟩]⟩]
          [("1", ⟨1, 9, "m", some 0, 100, false, none, false⟩)]).1 "1" = some r' ∧
        r'.notified_at = (⟨1, 9, "m", some 0, 100, false, none, false⟩ : Record).notified_at) :=
  ⟨⟨rfl, rfl, rfl,
    (claim_C8_notified_at ⟨[], []⟩).1 1 "m" 9 100 50
      ⟨[⟨"1", "m", false, some 0⟩]⟩ ⟨"1", "m", false, some 0⟩
      ⟨[], [], [], []⟩ rfl rfl rfl⟩,
   ⟨by decide,
    (claim_C8_notified_at ⟨[], []⟩).2
      [⟨500, 500, [⟨1, "p", [⟨9, "m", "t", [],
        [⟨[⟨"1", "m", false, some 0⟩]⟩]⟩]⟩]⟩]
      [("1", ⟨1, 9, "m", some 0, 100, false, none, false⟩)] "1"
      ⟨1, 9, "m", some 0, 100, false, none, false⟩ (by decide)⟩⟩

/-- Counterexample to C9: a malformed timestamp on a note encountered while
processing a review request is NOT always fatal.  With allowlist ["alice"],
bob's note carries a malformed `created_at`; the user filter skips the note
before any timestamp is parsed, and the cycle completes without an
exception (and without touching the ledger). -/
theorem claim_C9_malformed_cex :
    (check_for_new_comments ⟨["alice"], []⟩ 100 50
      [⟨1, "p", [⟨9, "m", "t", [], [⟨[⟨"1", "bob", false, none⟩]⟩]⟩]⟩] []).2 = false ∧
    (check_for_new_comments ⟨["alice"], []⟩ 100 50
      [⟨1, "p", [⟨9, "m", "t", [], [⟨[⟨"1", "bob", false, none⟩]⟩]⟩]⟩] []).1.1 = [] := by
  refine ⟨by decide, by decide⟩

/-- C9 as amended: a malformed timestamp is fatal exactly when the code
parses it.  If a tracked, non-system note's discussion contains any
non-system note with a malformed timestamp, processing of that note raises
(the lines-287-288 parses); likewise if the tracked note's ledger record is
unresponded, not follow-up-sent and its stored timestamp is malformed (the
line-276 parse).  The exception propagates with no recovery: once a merge
request's processing raises, the remaining merge requests and projects of
the cycle are skipped and the cycle ends with the raised flag.  Notes
skipped as system notes or by the user filter may carry malformed
timestamps without effect; timestamps that parse (after the Z-suffix
normalization) are compared as instants. -/
theorem claim_C9_malformed_fatal (cfg : Config) :
    (∀ (pid : Nat) (a : String) (iid : Nat) (ct now : Int) (d : Discussion)
        (note : Note) (st : St) (c : Note),
      c ∈ d.notes → c.system = false → c.created_at = none →
      note.system = false → should_track_user cfg note.author = true →
      (processNote cfg pid a iid ct now d note st).2 = true) ∧
    (∀ (pid : Nat) (a : String) (iid : Nat) (ct now : Int) (d : Discussion)
        (note : Note) (st : St) (r : Record),
      dictFind st.ledger note.id = some r → r.responded = false →
      r.followup_sent = false → r.created_at = none →
      note.system = false → should_track_user cfg note.author = true →
      (processNote cfg pid a iid ct now d note st).2 = true) ∧
    (∀ (pid : Nat) (ct now : Int) (mr : MergeRequest) (rest : List MergeRequest)
        (lg lg' : Ledger) (ns ns' : List Notif) (sn : List (List String)),
      processMR cfg pid ct now mr lg ns = ((lg', ns', sn), true) →
      processMRs cfg pid ct now (mr :: rest) (lg, ns) = ((lg', ns'), true)) ∧
    (∀ (ct now : Int) (p : Project) (rest : List Project)
        (s s' : Ledger × List Notif),
      processMRs cfg p.id ct now p.mrs s = (s', true) →
      processProjects cfg ct now (p :: rest) s = (s', true)) := by
  refine ⟨?_, ?_, ?_, ?_⟩
  · intro pid a iid ct now d note st c hc hcsys hmal hsys htrk
    exact processNote_scan_malformed cfg pid a iid ct now d note st c hc hcsys
      hmal hsys htrk
  · intro pid a iid ct now d note st r hfind hresp hfu hmal hsys htrk
    exact processNote_fc_malformed cfg pid a iid ct now d note st r hfind hresp
      hfu hmal hsys htrk
  · intro pid ct now mr rest lg lg' ns ns' sn hstep
    exact processMRs_cons_raise cfg pid ct now mr rest lg lg' ns ns' sn hstep
  · intro ct now p rest s s' hstep
    exact processProjects_cons_raise cfg ct now p rest s s' hstep

/-- Witness for C9 as amended: alice's tracked note with a malformed
timestamp raises, and a raising merge request aborts the rest of the cycle. -/
theorem claim_C9_malformed_fatal_witness :
    ((⟨"1", "alice", false, none⟩ : Note) ∈
        (⟨[⟨"1", "alice", false, none⟩]⟩ : Discussion).notes ∧
      (⟨"1", "alice", false, none⟩ : Note).system = false ∧
      (⟨"1", "alice", false, none⟩ : Note).created_at = none ∧
      should_track_user ⟨[], []⟩ (⟨"1", "alice", false, none⟩ : Note).author = true ∧
      (processNote ⟨[], []⟩ 1 "m" 9 100 50 ⟨[⟨"1", "alice", false, none⟩]⟩
        ⟨"1", "alice", false, none⟩ ⟨[], [], [], []⟩).2 = true) ∧
    (processMR ⟨[], []⟩ 1 100 50
        ⟨9, "m", "t", [], [⟨[⟨"1", "alice", false, none⟩]⟩]⟩ [] [] =
      (((processMR ⟨[], []⟩ 1 100 50
          ⟨9, "m", "t", [], [⟨[⟨"1", "alice", false, none⟩]⟩]⟩ [] []).1.1,
        (processMR ⟨[], []⟩ 1 100 50
          ⟨9, "m", "t", [], [⟨[⟨"1", "alice", false, none⟩]⟩]⟩ [] []).1.2.1,
        (processMR ⟨[], []⟩ 1 100 50
          ⟨9, "m", "t", [], [⟨[⟨"1", "alice", false, none⟩]⟩]⟩ [] []).1.2.2), true) ∧
      processMRs ⟨[], []⟩ 1 100 50
        [⟨9, "m", "t", [], [⟨[⟨"1", "alice", false, none⟩]⟩]⟩,
         ⟨10, "m", "u", [], [⟨[⟨"2", "alice", false, some 0⟩]⟩]⟩] ([], []) =
        (((processMR ⟨[], []⟩ 1 100 50
            ⟨9, "m", "t", [], [⟨[⟨"1", "alice", false, none⟩]⟩]⟩ [] []).1.1,
          (processMR ⟨[], []⟩ 1 100 50
            ⟨9, "m", "t", [], [⟨[⟨"1", "alice", false, none⟩]⟩]⟩ [] []).1.2.1), true)) :=
  ⟨⟨List.mem_singleton.mpr rfl, rfl, rfl, rfl,
    (claim_C9_malformed_fatal ⟨[], []⟩).1 1 "m" 9 100 50
      ⟨[⟨"1", "alice", false, none⟩]⟩ ⟨"1", "alice", false, none⟩
      ⟨[], [], [], []⟩ ⟨"1", "alice", false, none⟩
      (List.mem_singleton.mpr rfl) rfl rfl rfl rfl⟩,
   ⟨by decide,
    (claim_C9_malformed_fatal ⟨[], []⟩).2.2.1 1 100 50
      ⟨9, "m", "t", [], [⟨[⟨"1", "alice", false, none⟩]⟩]⟩
      [⟨10, "m", "u", [], [⟨[⟨"2", "alice", false, some 0⟩]⟩]⟩]
      []
      (processMR ⟨[], []⟩ 1 100 50
        ⟨9, "m", "t", [], [⟨[⟨"1", "alice", false, none⟩]⟩]⟩ [] []).1.1
      []
      (processMR ⟨[], []⟩ 1 100 50
        ⟨9, "m", "t", [], [⟨[⟨"1", "alice", false, none⟩]⟩]⟩ [] []).1.2.1
      (processMR ⟨[], []⟩ 1 100 50
        ⟨9, "m", "t", [], [⟨[⟨"1", "alice", false, none⟩]⟩]⟩ [] []).1.2.2
      (by decide)⟩⟩

/-- C10: follow-up eligibility is evaluated only for notes re-observed in
the current cycle's fetched discussions of open merge requests.  If no cycle
of a run ever returns a note with identifier `k` (the merge request was
closed or merged, or the note is no longer returned), the ledger record for
`k` is preserved verbatim across the whole run — in particular its
`followup_sent` flag is never set — and no notification of any kind is ever
dispatched for it, no matter how much time passes. -/
theorem claim_C10_closed_mr_no_followup (cfg : Config)
    (cycles : List CycleInput) (lg : Ledger) (k : String) (r : Record)
    (hm : ∀ c ∈ cycles, projectsMention c.projects k = false)
    (hfind : dictFind lg k = some r) :
    dictFind (runCycles cfg cycles lg).1 k = some r ∧
    notifCount (runCycles cfg cycles lg).2 k = 0 := by
  obtain ⟨h1, h2⟩ := runCycles_untouched cfg cycles lg k hm
  rw [hfind] at h1
  exact ⟨h1, h2⟩

/-- Witness for C10: a 1000-hour-old unanswered tracked comment whose merge
request is no longer returned — two later cycles over other data leave its
record untouched (`followup_sent` still false) and dispatch nothing for it. -/
theorem claim_C10_closed_mr_no_followup_witness :
    ((∀ c ∈ [(⟨5000000, 5000000,
          [⟨3, "q", [⟨7, "zoe", "v", [], [⟨[⟨"42", "yan", false, some 0⟩]⟩]⟩]⟩]⟩ : CycleInput),
        ⟨9000000, 9000000, []⟩], projectsMention c.projects "1" = false) ∧
      dictFind [("1", (⟨1, 2, "alice", some 0, 3, false, none, false⟩ : Record))] "1" =
        some ⟨1, 2, "alice", some 0, 3, false, none, false⟩) ∧
    dictFind (runCycles ⟨[], []⟩
        [⟨5000000, 5000000,
          [⟨3, "q", [⟨7, "zoe", "v", [], [⟨[⟨"42", "yan", false, some 0⟩]⟩]⟩]⟩]⟩,
         ⟨9000000, 9000000, []⟩]
        [("1", ⟨1, 2, "alice", some 0, 3, false, none, false⟩)]).1 "1" =
      some ⟨1, 2, "alice", some 0, 3, false, none, false⟩ ∧
    notifCount (runCycles ⟨[], []⟩
        [⟨5000000, 5000000,
          [⟨3, "q", [⟨7, "zoe", "v", [], [⟨[⟨"42", "yan", false, some 0⟩]⟩]⟩]⟩]⟩,
         ⟨9000000, 9000000, []⟩]
        [("1", ⟨1, 2, "alice", some 0, 3, false, none, false⟩)]).2 "1" = 0 :=
  ⟨⟨by decide, by decide⟩,
   claim_C10_closed_mr_no_followup ⟨[], []⟩
      [⟨5000000, 5000000,
        [⟨3, "q", [⟨7, "zoe", "v", [], [⟨[⟨"42", "yan", false, some 0⟩]⟩]⟩]⟩]⟩,
       ⟨9000000, 9000000, []⟩]
      [("1", ⟨1, 2, "alice", some 0, 3, false, none, false⟩)] "1"
      ⟨1, 2, "alice", some 0, 3, false, none, false⟩ (by decide) (by decide)⟩

end CommentTracker
